import Mathlib

/-!
Address maps and memory handlers of the superchs, cvicny, poly and ampscarp drivers.

A shallow embedding of the driver sources

* `src/mame/drivers/superchs.cpp` (shared RAM, volume and speedup handlers, address maps),
* `src/mame/drivers/cvicny.cpp` (keyboard and display handlers, address map),
* `src/mame/drivers/poly.cpp` (keyboard and baud-rate handlers, address map),
* `src/mame/drivers/ampscarp.cpp` (address map),

together with a model of the address-space dispatcher that the drivers populate and of
the device bus graph.  Neither the dispatcher (`emumem`) nor a bus graph is among the
sources; they are modelled from the specification and every such definition says so in
its doc comment.

Machine integers are natural numbers; a value stored into a `uint32_t` cell is reduced
modulo `2 ^ 32`, one stored into a `uint8_t` cell modulo `2 ^ 8`.
-/

set_option linter.unusedVariables false

/-! ## Part 1: definitions -/

/-! ### Machine words -/

/-- Truncation of a value to a `uint32_t` cell. -/
def u32 (x : Nat) : Nat := x % 2 ^ 32

/-- Truncation of a value to a `uint8_t` cell. -/
def u8 (x : Nat) : Nat := x % 2 ^ 8

/-- Array store `f[idx] = v`. -/
def store (f : Nat → Nat) (idx v : Nat) : Nat → Nat :=
  fun j => if j = idx then v else f j

/-- Modelled from the spec: the macro `ACCESSING_BITS_0_7` is declared outside the sources.
The low byte lane is targeted when the access mask indicates it. -/
def ACCESSING_BITS_0_7 (mem_mask : Nat) : Bool := mem_mask &&& 0x00ff != 0

/-- Modelled from the spec: the macro `ACCESSING_BITS_8_15` is declared outside the sources.
The high byte lane is targeted when the access mask indicates it. -/
def ACCESSING_BITS_8_15 (mem_mask : Nat) : Bool := mem_mask &&& 0xff00 != 0

/-! ### The address-space dispatcher (modelled from the specification) -/

/-- Member functions of the driver classes that the address maps name with `FUNC(...)`. -/
inductive driver_fn where
  | key_r
  | digit_w
  | segment_w
  | baud_rate_w
  | shared_ram_r
  | shared_ram_w
  | cpua_ctrl_w
  | main_cycle_r
  | sub_cycle_r
deriving DecidableEq, Repr

/-- Target of one direction of a handler entry: `.rom()`, `.ram()` (with the tag given to
`.share(...)`, empty when the entry has none), `.noprw()`, a member of the driver class
(`this, FUNC(...)`), or a member of another device. -/
inductive map_target where
  | rom
  | ram (share : String)
  | nop
  | member (f : driver_fn)
  | device (tag : String) (func : String)
deriving DecidableEq, Repr

/-- One line `map(addrstart, addrend)...` of an address map: the inclusive range, the
mirror mask and the target of each direction (`none` when the line installs nothing for
that direction). -/
structure map_entry where
  addrstart : Nat
  addrend : Nat
  addrmirror : Nat
  read : Option map_target
  write : Option map_target
deriving DecidableEq, Repr

/-- Entry built by `map(s, e).rom()`: readable, no write handler. -/
def mk_rom (s e : Nat) : map_entry := ⟨s, e, 0, some .rom, none⟩

/-- Entry built by `map(s, e).ram()` or `map(s, e).ram().share(tag)`. -/
def mk_ram (s e : Nat) (share : String) : map_entry :=
  ⟨s, e, 0, some (.ram share), some (.ram share)⟩

/-- Entry built by `map(s, e).r(...)`. -/
def mk_r (s e : Nat) (t : map_target) : map_entry := ⟨s, e, 0, some t, none⟩

/-- Entry built by `map(s, e).w(...)`. -/
def mk_w (s e : Nat) (t : map_target) : map_entry := ⟨s, e, 0, none, some t⟩

/-- Entry built by `map(s, e).rw(...)`. -/
def mk_rw (s e : Nat) (r w : map_target) : map_entry := ⟨s, e, 0, some r, some w⟩

/-- The modifier `.mirror(m)`. -/
def map_entry.mirror (e : map_entry) (m : Nat) : map_entry := { e with addrmirror := m }

/-- The program address space of one CPU: its address mask, the value an unmapped read
returns (`unmap_value_high()` selects all ones) and the handler entries in install order. -/
structure address_space where
  addrmask : Nat
  unmap : Nat
  entries : List map_entry

/-- The value `x & ~m`. -/
def clear_bits (x m : Nat) : Nat := x ^^^ (x &&& m)

/-- Modelled from the spec: the dispatcher is not among the sources.  An entry with mirror
mask `m` matches an address through the compact predicate on `address & ~m`. -/
def entry_covers (e : map_entry) (a : Nat) : Bool :=
  decide (e.addrstart ≤ clear_bits a e.addrmirror ∧ clear_bits a e.addrmirror ≤ e.addrend)

/-- Modelled from the spec: priority scan of a range table; among the entries that satisfy
`p` the most recently installed one (the last of the list) wins. -/
def find_last (p : map_entry → Bool) : List map_entry → Option map_entry
  | [] => none
  | e :: es =>
    match find_last p es with
    | some f => some f
    | none => if p e then some e else none

/-- Modelled from the spec: point lookup in the read table.  The address is masked by the
address mask of the space first; only entries with a read target take part. -/
def address_space.lookup_read (sp : address_space) (a : Nat) : Option map_entry :=
  find_last (fun e => e.read.isSome && entry_covers e (a &&& sp.addrmask)) sp.entries

/-- Modelled from the spec: point lookup in the write table. -/
def address_space.lookup_write (sp : address_space) (a : Nat) : Option map_entry :=
  find_last (fun e => e.write.isSome && entry_covers e (a &&& sp.addrmask)) sp.entries

/-- Modelled from the spec: `install_read_handler(s, e, delegate)` appends a read-only
entry to the space, after everything the address map installed. -/
def address_space.install_read_handler (sp : address_space) (s e : Nat) (t : map_target) :
    address_space :=
  { sp with entries := sp.entries ++ [mk_r s e t] }

/-- Modelled from the spec: storage offset of address `a` inside entry `e`, after the
address mask and the mirror bits are removed. -/
def address_space.offset_in (sp : address_space) (e : map_entry) (a : Nat) : Nat :=
  clear_bits (a &&& sp.addrmask) e.addrmirror - e.addrstart

/-- Modelled from the spec: the set of addresses obtained by OR-ing a subset of the bits of
the mirror mask into an address of the base range (literal mirror expansion). -/
def mirror_aliases (e : map_entry) (a : Nat) : Prop :=
  ∃ b sub, e.addrstart ≤ b ∧ b ≤ e.addrend ∧ sub &&& e.addrmirror = sub ∧ a = b ||| sub

/-! ### superchs.cpp -/

/-- Execution state of a CPU as far as the driver touches it: the program counter read by
`pc()` and whether the CPU is suspended until its next interrupt. -/
structure cpu_device where
  pc : Nat
  suspended : Bool
deriving DecidableEq, Repr

/-- Modelled from the spec: `spin_until_interrupt()` is a member of the CPU device class,
which is not among the sources, and the specification does not describe it.  Following
its name and the comment `Speedup handlers` on its two callers it is taken to suspend the
CPU until its next interrupt and to leave the program counter alone. -/
def cpu_device.spin_until_interrupt (c : cpu_device) : cpu_device :=
  { c with suspended := true }

/-- Fields of `superchs_state` used by the memory handlers: the shares `"ram"` and
`"shared_ram"` (arrays of 32-bit words) and the two CPUs. -/
structure superchs_state where
  m_ram : Nat → Nat
  m_shared_ram : Nat → Nat
  m_maincpu : cpu_device
  m_subcpu : cpu_device

namespace superchs_state

/-- The assignment `m_shared_ram[idx] = v`. -/
def poke (s : superchs_state) (idx v : Nat) : superchs_state :=
  { s with m_shared_ram := store s.m_shared_ram idx (u32 v) }

/-- Handler `READ16_MEMBER(superchs_state::shared_ram_r)`. -/
def shared_ram_r (s : superchs_state) (offset : Nat) : Nat :=
  if offset &&& 1 = 0 then (s.m_shared_ram (offset / 2) &&& 0xffff0000) >>> 16
  else s.m_shared_ram (offset / 2) &&& 0x0000ffff

/-- Handler `WRITE16_MEMBER(superchs_state::shared_ram_w)`. -/
def shared_ram_w (s : superchs_state) (offset data mem_mask : Nat) : superchs_state :=
  if offset &&& 1 = 0 then
    let s1 :=
      if ACCESSING_BITS_8_15 mem_mask then
        s.poke (offset / 2)
          ((s.m_shared_ram (offset / 2) &&& 0x00ffffff) ||| ((data &&& 0xff00) <<< 16))
      else s
    if ACCESSING_BITS_0_7 mem_mask then
      s1.poke (offset / 2)
        ((s1.m_shared_ram (offset / 2) &&& 0xff00ffff) ||| ((data &&& 0x00ff) <<< 16))
    else s1
  else
    let s1 :=
      if ACCESSING_BITS_8_15 mem_mask then
        s.poke (offset / 2)
          ((s.m_shared_ram (offset / 2) &&& 0xffff00ff) ||| ((data &&& 0xff00) <<< 0))
      else s
    if ACCESSING_BITS_0_7 mem_mask then
      s1.poke (offset / 2)
        ((s1.m_shared_ram (offset / 2) &&& 0xffffff00) ||| ((data &&& 0x00ff) <<< 0))
    else s1

/-- Handler `READ32_MEMBER(superchs_state::main_cycle_r)`: the value read and the state
after the read. -/
def main_cycle_r (s : superchs_state) (offset : Nat) : Nat × superchs_state :=
  let s1 :=
    if s.m_maincpu.pc = 0x702 then { s with m_maincpu := s.m_maincpu.spin_until_interrupt }
    else s
  (s1.m_ram 0, s1)

/-- Handler `READ16_MEMBER(superchs_state::sub_cycle_r)`: the value read and the state
after the read. -/
def sub_cycle_r (s : superchs_state) (offset : Nat) : Nat × superchs_state :=
  let s1 :=
    if s.m_subcpu.pc = 0x454 then { s with m_subcpu := s.m_subcpu.spin_until_interrupt }
    else s
  (s1.m_ram 2 &&& 0xffff, s1)

end superchs_state

/-- The address map `superchs_state::superchs_map` of the main CPU (24-bit address bus;
no unmap value is selected, the default 0 is assumed; the modifier `.umask32(0xffffffff)`
of the last line selects all lanes and is not recorded). -/
def superchs_map : address_space :=
  { addrmask := 0xffffff
    unmap := 0
    entries :=
      [ mk_rom 0x000000 0x0fffff,
        mk_ram 0x100000 0x11ffff "ram",
        mk_ram 0x140000 0x141fff "spriteram",
        mk_rw 0x180000 0x18ffff (.device "tc0480scp" "tc0480scp_device::long_r")
          (.device "tc0480scp" "tc0480scp_device::long_w"),
        mk_rw 0x1b0000 0x1b002f (.device "tc0480scp" "tc0480scp_device::ctrl_long_r")
          (.device "tc0480scp" "tc0480scp_device::ctrl_long_w"),
        mk_ram 0x200000 0x20ffff "shared_ram",
        mk_w 0x240000 0x240003 (.member .cpua_ctrl_w),
        mk_rw 0x280000 0x287fff (.ram "palette") (.device "palette" "palette_device::write32"),
        mk_rw 0x2c0000 0x2c07ff (.device "taito_en:dpram" "mb8421_device::left_r")
          (.device "taito_en:dpram" "mb8421_device::left_w"),
        mk_rw 0x300000 0x300007 (.device "tc0510nio" "tc0510nio_device::read")
          (.device "tc0510nio" "tc0510nio_device::write"),
        mk_rw 0x340000 0x340007 (.device "adc" "adc0808_device::data_r")
          (.device "adc" "adc0808_device::address_offset_start_w") ] }

/-- The address map `superchs_state::superchs_cpub_map` of the sub CPU. -/
def superchs_cpub_map : address_space :=
  { addrmask := 0xffffff
    unmap := 0
    entries :=
      [ mk_rom 0x000000 0x03ffff,
        mk_ram 0x200000 0x20ffff "",
        mk_w 0x600000 0x60ffff (.device "tc0480scp" "tc0480scp_device::word_w"),
        mk_rw 0x800000 0x80ffff (.member .shared_ram_r) (.member .shared_ram_w),
        mk_ram 0xa00000 0xa001ff "" ] }

/-- Main CPU program space after `DRIVER_INIT_MEMBER(superchs_state,superchs)`. -/
def superchs_init_maincpu : address_space :=
  superchs_map.install_read_handler 0x100000 0x100003 (.member .main_cycle_r)

/-- Sub CPU program space after `DRIVER_INIT_MEMBER(superchs_state,superchs)`. -/
def superchs_init_subcpu : address_space :=
  superchs_cpub_map.install_read_handler 0x80000a 0x80000b (.member .sub_cycle_r)

namespace superchs_state

/-- Modelled from the spec: a 32-bit read of the main CPU at byte address `a`, dispatched
through its program space.  The shares `"ram"` and `"shared_ram"` are indexed by the word
offset inside their entry; `ext` supplies the value of every target that lives outside
the driver class (ROM, other shares, devices). -/
def maincpu_read32 (ext : map_entry → Nat → Nat) (s : superchs_state) (a : Nat) :
    Nat × superchs_state :=
  match superchs_init_maincpu.lookup_read a with
  | none => (superchs_init_maincpu.unmap, s)
  | some e =>
    let off := superchs_init_maincpu.offset_in e a
    match e.read with
    | some (.member .main_cycle_r) => s.main_cycle_r (off / 4)
    | some (.ram "ram") => (s.m_ram (off / 4), s)
    | some (.ram "shared_ram") => (s.m_shared_ram (off / 4), s)
    | some .nop => (superchs_init_maincpu.unmap, s)
    | _ => (ext e (off / 4), s)

/-- Modelled from the spec: a 16-bit read of the sub CPU at byte address `a`, dispatched
through its program space. -/
def subcpu_read16 (ext : map_entry → Nat → Nat) (s : superchs_state) (a : Nat) :
    Nat × superchs_state :=
  match superchs_init_subcpu.lookup_read a with
  | none => (superchs_init_subcpu.unmap, s)
  | some e =>
    let off := superchs_init_subcpu.offset_in e a
    match e.read with
    | some (.member .sub_cycle_r) => s.sub_cycle_r (off / 2)
    | some (.member .shared_ram_r) => (s.shared_ram_r (off / 2), s)
    | some .nop => (superchs_init_subcpu.unmap, s)
    | _ => (ext e (off / 2), s)

end superchs_state

/-- The address map `superchs_state::chase3_cpub_map` of the sub CPU of the prototypes. -/
def chase3_cpub_map : address_space :=
  { addrmask := 0xffffff
    unmap := 0
    entries :=
      [ mk_rom 0x000000 0x03ffff,
        mk_ram 0x200000 0x20ffff "",
        mk_ram 0x400000 0x40ffff "",
        mk_w 0x600000 0x60ffff (.device "tc0480scp" "tc0480scp_device::word_w"),
        mk_rw 0x800000 0x80ffff (.member .shared_ram_r) (.member .shared_ram_w),
        mk_ram 0xa00000 0xa001ff "" ] }

/-- The line `map(0x800000, 0x80ffff).rw(this, FUNC(superchs_state::shared_ram_r),
FUNC(superchs_state::shared_ram_w))` of `superchs_cpub_map` and of `chase3_cpub_map`. -/
def shared_ram_window : map_entry :=
  mk_rw 0x800000 0x80ffff (.member .shared_ram_r) (.member .shared_ram_w)

/-- The line `map(0x200000, 0x20ffff).ram().share("shared_ram")` of `superchs_map`. -/
def shared_ram_share : map_entry := mk_ram 0x200000 0x20ffff "shared_ram"

/-- Number of 32-bit words of the memory behind a RAM entry: the bytes of its range over
four. -/
def map_entry.words32 (e : map_entry) : Nat := (e.addrend + 1 - e.addrstart) / 4

namespace superchs_state

/-- Handler `READ8_MEMBER( superchs_state::volume_r )`; `volume` is what `m_volume->read()`
returns, the adjuster of port `"SOUND"` (0 .. 100, default 75). -/
def volume_r (volume : Nat) : Nat :=
  u8 ((u32 (volume * 255) / 100) ^^^ 0xff)

/-- Modelled from the spec: a 32-bit read at byte address `a` dispatched through the space
`sp`, with the targets of `maincpu_read32`.  With `superchs_map` for `sp` this is the read
the main CPU would make without the handlers DRIVER_INIT installs. -/
def read32_in (sp : address_space) (ext : map_entry → Nat → Nat) (s : superchs_state)
    (a : Nat) : Nat × superchs_state :=
  match sp.lookup_read a with
  | none => (sp.unmap, s)
  | some e =>
    let off := sp.offset_in e a
    match e.read with
    | some (.member .main_cycle_r) => s.main_cycle_r (off / 4)
    | some (.ram "ram") => (s.m_ram (off / 4), s)
    | some (.ram "shared_ram") => (s.m_shared_ram (off / 4), s)
    | some .nop => (sp.unmap, s)
    | _ => (ext e (off / 4), s)

/-- Modelled from the spec: a 16-bit read at byte address `a` dispatched through the space
`sp`, with the targets of `subcpu_read16`.  With `superchs_cpub_map` for `sp` this is the
read the sub CPU would make without the handlers DRIVER_INIT installs. -/
def read16_in (sp : address_space) (ext : map_entry → Nat → Nat) (s : superchs_state)
    (a : Nat) : Nat × superchs_state :=
  match sp.lookup_read a with
  | none => (sp.unmap, s)
  | some e =>
    let off := sp.offset_in e a
    match e.read with
    | some (.member .sub_cycle_r) => s.sub_cycle_r (off / 2)
    | some (.member .shared_ram_r) => (s.shared_ram_r (off / 2), s)
    | some .nop => (sp.unmap, s)
    | _ => (ext e (off / 2), s)

end superchs_state

/-! ### cvicny.cpp -/

/-- Fields of `cvicny_state` and the memory behind its address map: the selected digit,
the digit last written, the eight digit outputs, the ROM region `"maincpu"`, the static
RAM of the entry at `0x0800` and the current values of the input ports `X0` .. `X7`. -/
structure cvicny_state where
  m_digit : Nat
  m_digit_last : Nat
  m_digits : Nat → Nat
  rom : Nat → Nat
  ram : Nat → Nat
  ports : Nat → Nat

/-- The address map `cvicny_state::cvicny_mem` (Z80, 16-bit address bus). -/
def cvicny_mem : address_space :=
  { addrmask := 0xffff
    unmap := 0xff
    entries :=
      [ mk_rom 0x0000 0x07ff,
        (mk_ram 0x0800 0x0bff "").mirror 0x400,
        mk_r 0x1000 0x17ff (.member .key_r),
        mk_w 0x1800 0x1fff (.member .digit_w),
        mk_w 0x2000 0x27ff (.member .segment_w) ] }

namespace cvicny_state

/-- Handler `WRITE8_MEMBER( cvicny_state::segment_w )`. -/
def segment_w (s : cvicny_state) (data : Nat) : cvicny_state :=
  let s1 :=
    if s.m_digit ≠ s.m_digit_last then { s with m_digits := store s.m_digits s.m_digit data }
    else s
  { s1 with m_digit_last := s1.m_digit }

/-- Handler `WRITE8_MEMBER( cvicny_state::digit_w )`. -/
def digit_w (s : cvicny_state) (data : Nat) : cvicny_state :=
  { s with m_digit := data &&& 7 }

/-- Handler `READ8_MEMBER( cvicny_state::key_r )`.  The port `X<m_digit>` exists for the
rows 0 .. 7 only; looking up any other tag yields no port and the read fails. -/
def key_r (s : cvicny_state) : Option Nat :=
  if s.m_digit < 8 then
    let data := u8 (s.ports s.m_digit)
    some (u8 (((data <<< 4) ^^^ 0xf0) ||| data))
  else none

/-- Modelled from the spec: an 8-bit read of the CPU at address `a`, dispatched through
`cvicny_mem`; an address without read handler returns the unmap value. -/
def read (s : cvicny_state) (a : Nat) : Option Nat :=
  match cvicny_mem.lookup_read a with
  | none => some cvicny_mem.unmap
  | some e =>
    match e.read with
    | some .rom => some (s.rom (clear_bits (a &&& cvicny_mem.addrmask) e.addrmirror))
    | some (.ram _) => some (s.ram (cvicny_mem.offset_in e a))
    | some (.member .key_r) => s.key_r
    | _ => some cvicny_mem.unmap

/-- Modelled from the spec: an 8-bit write of the CPU at address `a`, dispatched through
`cvicny_mem`; a write without write handler is discarded. -/
def write (s : cvicny_state) (a v : Nat) : cvicny_state :=
  match cvicny_mem.lookup_write a with
  | none => s
  | some e =>
    match e.write with
    | some (.ram _) => { s with ram := store s.ram (cvicny_mem.offset_in e a) (u8 v) }
    | some (.member .digit_w) => s.digit_w (u8 v)
    | some (.member .segment_w) => s.segment_w (u8 v)
    | _ => s

end cvicny_state

/-! ### poly.cpp -/

/-- The address map `poly_state::poly_mem` (6809, 16-bit address bus). -/
def poly_mem : address_space :=
  { addrmask := 0xffff
    unmap := 0xff
    entries :=
      [ mk_ram 0x0000 0x9fff "",
        mk_rom 0xa000 0xcfff,
        mk_ram 0xd000 0xdfff "",
        mk_rw 0xe000 0xe003 (.device "pia0" "pia6821_device::read")
          (.device "pia0" "pia6821_device::write"),
        mk_rw 0xe004 0xe005 (.device "acia" "acia6850_device::read")
          (.device "acia" "acia6850_device::write"),
        mk_w 0xe006 0xe006 (.member .baud_rate_w),
        mk_rw 0xe00c 0xe00f (.device "pia1" "pia6821_device::read")
          (.device "pia1" "pia6821_device::write"),
        mk_rw 0xe020 0xe027 (.device "ptm" "ptm6840_device::read")
          (.device "ptm" "ptm6840_device::write"),
        mk_rw 0xe030 0xe037 (.device "adlc" "mc6854_device::read")
          (.device "adlc" "mc6854_device::write"),
        mk_rw 0xe040 0xe040 .nop .nop,
        mk_ram 0xe050 0xe05f "",
        mk_ram 0xe800 0xebbf "videoram",
        mk_ram 0xebc0 0xebff "",
        mk_ram 0xec00 0xefbf "",
        mk_ram 0xefc0 0xefff "",
        mk_rom 0xf000 0xffff ] }

/-- Modelled from the spec: the value of an 8-bit read of the poly CPU at address `a`,
dispatched through `poly_mem`.  `mem` holds the contents of the ROM region and of the RAM
entries by address, `dev` supplies what a device handler returns for an entry and offset. -/
def poly_read (dev : map_entry → Nat → Nat) (mem : Nat → Nat) (a : Nat) : Nat :=
  match poly_mem.lookup_read a with
  | none => poly_mem.unmap
  | some e =>
    match e.read with
    | some .rom => mem (clear_bits (a &&& poly_mem.addrmask) e.addrmirror)
    | some (.ram _) => mem (clear_bits (a &&& poly_mem.addrmask) e.addrmirror)
    | some (.device _ _) => dev e (poly_mem.offset_in e a)
    | _ => poly_mem.unmap

/-- Fields of `poly_state` used by the keyboard and baud-rate handlers: the latched key
`m_term_data` (a `uint8_t`), the keyboard PIA `m_pia1`, whose device class is not among the
sources and whose state has the type `pia`, and the clock scale of the device
`"acia_clock"`.  The scale is a `double` in the source; `baud_rate_w` only ever sets it to
0 or to 1 divided by a power of two up to 32, values binary floating point holds exactly,
so it is a rational number here. -/
structure poly_state (pia : Type) where
  m_term_data : Nat
  m_pia1 : pia
  m_acia_clock : ℚ

/-- Frequency of the device `"acia_clock"`, `MCFG_DEVICE_ADD("acia_clock", CLOCK, 153600)`. -/
def acia_clock_hz : Nat := 153600

/-- The table in the comment of `baud_rate_w`: `0=9600,2=4800,4=2400,6=1200,8=600,A=300`. -/
def documented_baud (data : Nat) : Nat :=
  if data = 0x0 then 9600
  else if data = 0x2 then 4800
  else if data = 0x4 then 2400
  else if data = 0x6 then 1200
  else if data = 0x8 then 600
  else if data = 0xA then 300
  else 0

namespace poly_state

/-- Handler `READ8_MEMBER( poly_state::pia1_b_in )`: the value returned and the state after
the read. -/
def pia1_b_in {pia : Type} (s : poly_state pia) : Nat × poly_state pia :=
  let data := s.m_term_data
  (data, { s with m_term_data := s.m_term_data &&& 0x7f })

/-- Member `poly_state::kbd_put`.  `cb1_w` is the line write `pia6821_device::cb1_w` of the
keyboard PIA, a parameter because the device is not among the sources. -/
def kbd_put {pia : Type} (cb1_w : pia → Nat → pia) (s : poly_state pia) (data : Nat) :
    poly_state pia :=
  { s with
    m_term_data := u8 (data ||| 0x80)
    m_pia1 := cb1_w (cb1_w s.m_pia1 1) 0 }

/-- The state after `n` successive calls of `pia1_b_in`. -/
def after_reads {pia : Type} (n : Nat) (s : poly_state pia) : poly_state pia :=
  Nat.iterate (fun t => (pia1_b_in t).2) n s

/-- Handler `WRITE8_MEMBER(poly_state::baud_rate_w)`. -/
def baud_rate_w {pia : Type} (s : poly_state pia) (data : Nat) : poly_state pia :=
  let selector := (data &&& 0x0e) >>> 1
  { s with m_acia_clock := if selector ≤ 5 then 1 / (((1 <<< selector : Nat)) : ℚ) else 0 }

end poly_state

/-- The poly machine as its program map sees it: the memory behind the RAM and ROM entries
by address, the fields of the driver class, and the state of the devices on the bus, whose
classes are not among the sources and whose state has the type `devs`. -/
structure poly_machine (pia devs : Type) where
  mem : Nat → Nat
  driver : poly_state pia
  devices : devs

namespace poly_machine

/-- Modelled from the spec: an 8-bit write of the poly CPU at address `a`, dispatched
through `poly_mem`.  A RAM entry stores the byte at its address, the entry at `0xe006` runs
`baud_rate_w`, a device entry runs the write handler of its device, which is the parameter
`dev_w` (entry, offset, data) and may change anything in the machine; a write without
handler or to the `noprw` entry is discarded. -/
def write {pia devs : Type}
    (dev_w : map_entry → Nat → Nat → poly_machine pia devs → poly_machine pia devs)
    (m : poly_machine pia devs) (a v : Nat) : poly_machine pia devs :=
  match poly_mem.lookup_write a with
  | none => m
  | some e =>
    match e.write with
    | some (.ram _) =>
      { m with mem := store m.mem (clear_bits (a &&& poly_mem.addrmask) e.addrmirror) (u8 v) }
    | some (.member .baud_rate_w) => { m with driver := m.driver.baud_rate_w (u8 v) }
    | some (.device _ _) => dev_w e (poly_mem.offset_in e a) (u8 v) m
    | _ => m

/-- Modelled from the spec: the value of an 8-bit read of the poly CPU at address `a`, that
is `poly_read` on the memory of the machine; `dev_r` gives what the read handler of a
device returns in the current machine for an entry and offset. -/
def read {pia devs : Type} (dev_r : poly_machine pia devs → map_entry → Nat → Nat)
    (m : poly_machine pia devs) (a : Nat) : Nat :=
  poly_read (dev_r m) m.mem a

end poly_machine

/-- Whether a read at address `a` resolves to raw storage, a ROM or RAM entry of
`poly_mem`. -/
def poly_memory_backed (a : Nat) : Bool :=
  match poly_mem.lookup_read a with
  | none => false
  | some e =>
    match e.read with
    | some .rom => true
    | some (.ram _) => true
    | _ => false

/-- The bank switching property of the specification, stated for the poly machine: there
are a register `reg` of the translator range `0xE050..0xE05F`, an address `w` of a window
of raw storage and two different storage cells `c2` and `c0`, the storage of bank 2 and of
bank 0 for that address, such that in every machine the read at `w` right after writing
2 to `reg` returns the cell `c2` and right after writing 0 to `reg` the cell `c0`. -/
def poly_bank_switching {pia devs : Type}
    (dev_w : map_entry → Nat → Nat → poly_machine pia devs → poly_machine pia devs)
    (dev_r : poly_machine pia devs → map_entry → Nat → Nat) : Prop :=
  ∃ reg w c0 c2 : Nat,
    0xe050 ≤ reg ∧ reg ≤ 0xe05f ∧ w ≤ 0xffff ∧ poly_memory_backed w = true ∧ c0 ≠ c2 ∧
    ∀ m : poly_machine pia devs,
      (m.write dev_w reg 2).read dev_r w = m.mem c2
      ∧ (m.write dev_w reg 0).read dev_r w = m.mem c0

/-! ### The device bus graph (modelled from the specification) -/

/-- Errors raised while a machine is configured. -/
inductive config_error where
  | ConfigurationError (msg : String)
deriving DecidableEq, Repr

/-- Modelled from the spec: the Device Bus Graph is not among the sources.  Devices are
numbered; an edge `(x, y)` says that the address space of device `x` forwards to the
address space of device `y`. -/
structure bus_graph where
  edges : List (Nat × Nat)

/-- Modelled from the spec: graph traversal; device `y` is reached from device `x` along
at most `fuel` forwarding edges. -/
def bus_graph.reaches (g : bus_graph) : Nat → Nat → Nat → Bool
  | 0, x, y => x == y
  | fuel + 1, x, y => x == y || g.edges.any (fun e => e.1 == x && g.reaches fuel e.2 y)

/-- Modelled from the spec: `validate()` fails with `ConfigurationError("cyclic bus
forwarding")` when the traversal finds a forwarding cycle, that is an edge whose source
is reached back from its target. -/
def bus_graph.validate (g : bus_graph) : Except config_error Unit :=
  if g.edges.any (fun e => g.reaches g.edges.length e.2 e.1) then
    .error (.ConfigurationError "cyclic bus forwarding")
  else .ok ()

/-- Modelled from the spec: the graph is frozen before the first CPU execution; a machine
is only constructed from a graph that passes `validate()`. -/
def bus_graph.freeze (g : bus_graph) : Except config_error bus_graph :=
  match g.validate with
  | .error e => .error e
  | .ok _ => .ok g

/-! ### ampscarp.cpp -/

/-- The address map `ampscarp_state::mem_map` (68HC11, 16-bit address bus). -/
def mem_map : address_space :=
  { addrmask := 0xffff
    unmap := 0
    entries := [ mk_rom 0x0000 0xffff ] }

/-- Memory behind the ampscarp map: the contents of the region `"maincpu"`, by address. -/
structure ampscarp_state where
  region : Nat → Nat

namespace ampscarp_state

/-- Modelled from the spec: an 8-bit read at address `a`, dispatched through `mem_map`. -/
def read (s : ampscarp_state) (a : Nat) : Nat :=
  match mem_map.lookup_read a with
  | none => mem_map.unmap
  | some e =>
    match e.read with
    | some .rom => s.region (clear_bits (a &&& mem_map.addrmask) e.addrmirror)
    | _ => mem_map.unmap

/-- Modelled from the spec: an 8-bit write at address `a`, dispatched through `mem_map`;
only an entry with a raw-storage write target changes the memory. -/
def write (s : ampscarp_state) (a v : Nat) : ampscarp_state :=
  match mem_map.lookup_write a with
  | none => s
  | some e =>
    match e.write with
    | some (.ram _) =>
      { s with
        region := store s.region (clear_bits (a &&& mem_map.addrmask) e.addrmirror) (u8 v) }
    | _ => s

end ampscarp_state

/-! ### Concrete machines used as instances -/

/-- State whose shared RAM holds `w` in every word. -/
def superchs_const (w : Nat) : superchs_state :=
  ⟨fun _ => 0, fun _ => w, ⟨0, false⟩, ⟨0, false⟩⟩

/-- A superchs machine with empty memories, the main CPU running at `pc = 0x702`. -/
def superchs_at_0x702 : superchs_state :=
  ⟨fun _ => 0, fun _ => 0, ⟨0x702, false⟩, ⟨0, false⟩⟩

/-- The RAM line of `cvicny_mem`, `map(0x0800, 0x0bff).ram().mirror(0x400)`. -/
def cvicny_ram_entry : map_entry := (mk_ram 0x0800 0x0bff "").mirror 0x400

/-- A cvicny machine whose RAM, ROM, ports and outputs are all zero. -/
def cvicny_zero : cvicny_state := ⟨0, 0, fun _ => 0, fun _ => 0, fun _ => 0, fun _ => 0⟩

/-- An ampscarp machine whose region holds 7 everywhere. -/
def ampscarp_seven : ampscarp_state := ⟨fun _ => 7⟩

/-- A cvicny machine with digit 0 selected and just written (`m_digit = m_digit_last`). -/
def cvicny_same_digit : cvicny_state := ⟨0, 0, fun _ => 0, fun _ => 0, fun _ => 0, fun _ => 0⟩

/-- A cvicny machine with digit 3 selected after digit 2 was written. -/
def cvicny_new_digit : cvicny_state := ⟨3, 2, fun _ => 0, fun _ => 0, fun _ => 0, fun _ => 0⟩

/-- A poly machine with no key latched, a PIA without state and clock scale 1. -/
def poly_idle : poly_state Unit := ⟨0, (), 1⟩

/-- A poly memory that holds the low byte of the address in every cell. -/
def poly_mem_low_byte : Nat → Nat := fun a => a % 256

/-- A poly machine with that memory, the idle driver state and devices without state. -/
def poly_machine_sample : poly_machine Unit Unit := ⟨poly_mem_low_byte, poly_idle, ()⟩

/-- A superchs machine whose share `"ram"` is zero and whose shared RAM holds `0x1234` in
every word. -/
def superchs_diverging : superchs_state := superchs_const 0x1234

/-! ## Part 2: auxiliary lemmas -/

/-! ### Bits of the mask constants -/

theorem testBit_run (lo n i : Nat) :
    Nat.testBit ((2 ^ n - 1) <<< lo) i = (decide (lo ≤ i) && decide (i < lo + n)) := by
  simp only [Nat.testBit_shiftLeft, Nat.testBit_two_pow_sub_one]
  by_cases h : lo ≤ i
  · simp [h]; omega
  · simp [h]

theorem tb_ffff0000 (i : Nat) :
    Nat.testBit 0xffff0000 i = (decide (16 ≤ i) && decide (i < 32)) :=
  testBit_run 16 16 i

theorem tb_0000ffff (i : Nat) : Nat.testBit 0x0000ffff i = decide (i < 16) :=
  Nat.testBit_two_pow_sub_one 16 i

theorem tb_ff00 (i : Nat) : Nat.testBit 0xff00 i = (decide (8 ≤ i) && decide (i < 16)) :=
  testBit_run 8 8 i

theorem tb_00ff (i : Nat) : Nat.testBit 0x00ff i = decide (i < 8) :=
  Nat.testBit_two_pow_sub_one 8 i

theorem tb_00ffffff (i : Nat) : Nat.testBit 0x00ffffff i = decide (i < 24) :=
  Nat.testBit_two_pow_sub_one 24 i

theorem tb_ff00ffff (i : Nat) :
    Nat.testBit 0xff00ffff i = (decide (i < 16) || (decide (24 ≤ i) && decide (i < 32))) := by
  rw [show (0xff00ffff : Nat) = (2 ^ 16 - 1) ||| ((2 ^ 8 - 1) <<< 24) from rfl, Nat.testBit_or,
    testBit_run, Nat.testBit_two_pow_sub_one]

theorem tb_ffff00ff (i : Nat) :
    Nat.testBit 0xffff00ff i = (decide (i < 8) || (decide (16 ≤ i) && decide (i < 32))) := by
  rw [show (0xffff00ff : Nat) = (2 ^ 8 - 1) ||| ((2 ^ 16 - 1) <<< 16) from rfl, Nat.testBit_or,
    testBit_run, Nat.testBit_two_pow_sub_one]

theorem tb_ffffff00 (i : Nat) :
    Nat.testBit 0xffffff00 i = (decide (8 ≤ i) && decide (i < 32)) :=
  testBit_run 8 24 i

theorem tb_0400 (i : Nat) : Nat.testBit 0x400 i = decide (10 = i) :=
  @Nat.testBit_two_pow 10 i

theorem tb_u32 (x i : Nat) : (u32 x).testBit i = (decide (i < 32) && x.testBit i) := by
  unfold u32; exact Nat.testBit_mod_two_pow x 32 i

/-! ### Arithmetic form of the masks used by the address maps -/

theorem and_ffff (a : Nat) : a &&& 0xffff = a % 65536 :=
  Nat.and_pow_two_sub_one_eq_mod a 16

theorem and_ffffff (a : Nat) : a &&& 0xffffff = a % 16777216 :=
  Nat.and_pow_two_sub_one_eq_mod a 24

theorem and_one (a : Nat) : a &&& 1 = a % 2 :=
  Nat.and_pow_two_sub_one_eq_mod a 1

theorem clear_bits_zero (x : Nat) : clear_bits x 0 = x := by
  simp [clear_bits]

theorem clear_bits_0x400 (a : Nat) : clear_bits a 0x400 = 2048 * (a / 2048) + a % 1024 := by
  have h : clear_bits a 0x400 = 2 ^ 11 * (a >>> 11) ||| a % 2 ^ 10 := by
    apply Nat.eq_of_testBit_eq
    intro i
    simp only [clear_bits, Nat.testBit_xor, Nat.testBit_and, Nat.testBit_or, tb_0400,
      Nat.testBit_mul_pow_two, Nat.testBit_mod_two_pow, Nat.testBit_shiftRight]
    obtain h | h | h : i < 10 ∨ i = 10 ∨ 11 ≤ i := by omega
    all_goals simp (disch := omega) only [decide_eq_true, decide_eq_false, Nat.add_sub_cancel']
    all_goals simp
  rw [h, Nat.shiftRight_eq_div_pow, ← Nat.mul_add_lt_is_or (by omega)]
  norm_num

theorem or_0x400 (a : Nat) : a ||| 0x400 = 2048 * (a / 2048) + 1024 + a % 1024 := by
  have h : a ||| 0x400 = 2 ^ 11 * (a >>> 11) ||| (0x400 ||| a % 2 ^ 10) := by
    apply Nat.eq_of_testBit_eq
    intro i
    simp only [Nat.testBit_or, tb_0400, Nat.testBit_mul_pow_two, Nat.testBit_mod_two_pow,
      Nat.testBit_shiftRight]
    obtain h | h | h : i < 10 ∨ i = 10 ∨ 11 ≤ i := by omega
    all_goals simp (disch := omega) only [decide_eq_true, decide_eq_false, Nat.add_sub_cancel']
    all_goals simp
  have hr : a % 2 ^ 10 < 2 ^ 10 := Nat.mod_lt a (by norm_num)
  have e1 : 2 ^ 10 * 1 + a % 2 ^ 10 = 2 ^ 10 * 1 ||| a % 2 ^ 10 := Nat.mul_add_lt_is_or hr 1
  have hb : 2 ^ 10 * 1 + a % 2 ^ 10 < 2 ^ 11 := by norm_num at hr ⊢; omega
  have e2 := Nat.mul_add_lt_is_or hb (a >>> 11)
  rw [e1] at e2
  rw [h, show (0x400 : Nat) = 2 ^ 10 * 1 from rfl, ← e2, ← e1, Nat.shiftRight_eq_div_pow]
  norm_num
  omega

theorem and_0x400 (a : Nat) : a &&& 0x400 = 1024 * (a / 1024 % 2) := by
  have h : a &&& 0x400 = 2 ^ 10 * ((a >>> 10) % 2 ^ 1) := by
    apply Nat.eq_of_testBit_eq
    intro i
    simp only [Nat.testBit_and, tb_0400, Nat.testBit_mul_pow_two, Nat.testBit_mod_two_pow,
      Nat.testBit_shiftRight]
    obtain h | h | h : i < 10 ∨ i = 10 ∨ 11 ≤ i := by omega
    all_goals simp (disch := omega) only [decide_eq_true, decide_eq_false, Nat.add_sub_cancel']
    all_goals simp
  rw [h, Nat.shiftRight_eq_div_pow]
  norm_num

/-! ### Shared RAM of superchs -/

theorem poke_same (s : superchs_state) (idx v : Nat) :
    (s.poke idx v).m_shared_ram idx = u32 v := by
  simp [superchs_state.poke, store]

theorem poke_other (s : superchs_state) (idx v j : Nat) (h : j ≠ idx) :
    (s.poke idx v).m_shared_ram j = s.m_shared_ram j := by
  simp [superchs_state.poke, store, h]

theorem shared_ram_w_other (s : superchs_state) (o d m j : Nat) (h : j ≠ o / 2) :
    (s.shared_ram_w o d m).m_shared_ram j = s.m_shared_ram j := by
  unfold superchs_state.shared_ram_w
  by_cases hp : o &&& 1 = 0 <;> by_cases h1 : ACCESSING_BITS_8_15 m = true <;>
    by_cases h0 : ACCESSING_BITS_0_7 m = true <;>
    simp only [hp, h1, h0, if_true, if_false, poke_other _ _ _ _ h, Bool.false_eq_true]

theorem acc_lanes :
    ACCESSING_BITS_8_15 0x0000 = false ∧ ACCESSING_BITS_0_7 0x0000 = false ∧
    ACCESSING_BITS_8_15 0x00ff = false ∧ ACCESSING_BITS_0_7 0x00ff = true ∧
    ACCESSING_BITS_8_15 0xff00 = true ∧ ACCESSING_BITS_0_7 0xff00 = false ∧
    ACCESSING_BITS_8_15 0xffff = true ∧ ACCESSING_BITS_0_7 0xffff = true := by
  decide


/-! ### Dispatch -/

theorem find_last_eq_none (p : map_entry → Bool) (l : List map_entry)
    (h : ∀ e ∈ l, p e = false) : find_last p l = none := by
  induction l with
  | nil => rfl
  | cons e es ih =>
    have h1 : find_last p es = none := ih (fun f hf => h f (List.mem_cons_of_mem e hf))
    have h2 : p e = false := h e (List.mem_cons_self e es)
    simp [find_last, h1, h2]

theorem cvicny_lookup_read_ram (b : Nat) (h1 : 0x800 ≤ b) (h2 : b ≤ 0xfff) :
    cvicny_mem.lookup_read b = some cvicny_ram_entry := by
  have hm : b % 65536 = b := by omega
  simp only [address_space.lookup_read, cvicny_mem, find_last, cvicny_ram_entry,
    mk_rom, mk_ram, mk_r, mk_w, map_entry.mirror, entry_covers, clear_bits_zero,
    clear_bits_0x400, and_ffff, hm, Option.isSome, Bool.true_and, Bool.false_and]
  simp (disch := omega) only [decide_eq_true, decide_eq_false]
  simp

theorem cvicny_lookup_write_ram (b : Nat) (h1 : 0x800 ≤ b) (h2 : b ≤ 0xfff) :
    cvicny_mem.lookup_write b = some cvicny_ram_entry := by
  have hm : b % 65536 = b := by omega
  simp only [address_space.lookup_write, cvicny_mem, find_last, cvicny_ram_entry,
    mk_rom, mk_ram, mk_r, mk_w, map_entry.mirror, entry_covers, clear_bits_zero,
    clear_bits_0x400, and_ffff, hm, Option.isSome, Bool.true_and, Bool.false_and]
  simp (disch := omega) only [decide_eq_true, decide_eq_false]
  simp

theorem cvicny_offset_ram (b : Nat) (h1 : 0x800 ≤ b) (h2 : b ≤ 0xfff) :
    cvicny_mem.offset_in cvicny_ram_entry b = b % 1024 := by
  have hm : b % 65536 = b := by omega
  simp only [address_space.offset_in, cvicny_mem, cvicny_ram_entry, mk_ram, map_entry.mirror,
    and_ffff, hm, clear_bits_0x400]
  omega

theorem cvicny_read_ram (s : cvicny_state) (b : Nat) (h1 : 0x800 ≤ b) (h2 : b ≤ 0xfff) :
    s.read b = some (s.ram (b % 1024)) := by
  unfold cvicny_state.read
  rw [cvicny_lookup_read_ram b h1 h2]
  simp only [cvicny_offset_ram b h1 h2]
  rfl

theorem cvicny_write_ram (s : cvicny_state) (b v : Nat) (h1 : 0x800 ≤ b) (h2 : b ≤ 0xfff) :
    s.write b v = { s with ram := store s.ram (b % 1024) (u8 v) } := by
  unfold cvicny_state.write
  rw [cvicny_lookup_write_ram b h1 h2]
  simp only [cvicny_offset_ram b h1 h2]
  rfl

/-! ### Lemmas for the second group of claims -/

theorem and_seven (d : Nat) : d &&& 7 = d % 8 :=
  Nat.and_pow_two_sub_one_eq_mod d 3

theorem xor_ff_of_le (x : Nat) (h : x ≤ 255) : x ^^^ 0xff = 255 - x := by
  have hx : x < 2 ^ 8 := by omega
  have e : 255 - x = 2 ^ 8 - (x + 1) := by omega
  rw [e]
  apply Nat.eq_of_testBit_eq
  intro i
  rw [Nat.testBit_two_pow_sub_succ hx, Nat.testBit_xor, tb_00ff]
  by_cases hi : i < 8
  · simp [hi]
  · have hz : x.testBit i = false :=
      Nat.testBit_lt_two_pow (lt_of_lt_of_le hx (Nat.pow_le_pow_right (by norm_num) (by omega)))
    simp [hi, hz]

theorem volume_r_eq (v : Nat) (h : v ≤ 100) :
    superchs_state.volume_r v = 255 - v * 255 / 100 := by
  have h1 : u32 (v * 255) = v * 255 := Nat.mod_eq_of_lt (by omega)
  have h2 : v * 255 / 100 ≤ 255 := by omega
  unfold superchs_state.volume_r
  rw [h1, xor_ff_of_le _ h2]
  exact Nat.mod_eq_of_lt (by omega)

theorem tb_0080 (i : Nat) : Nat.testBit 0x80 i = decide (7 = i) :=
  @Nat.testBit_two_pow 7 i

theorem tb_007f (i : Nat) : Nat.testBit 0x7f i = decide (i < 7) :=
  Nat.testBit_two_pow_sub_one 7 i

theorem or_0x80_and_0x7f (d : Nat) : (d ||| 0x80) &&& 0x7f = d &&& 0x7f := by
  apply Nat.eq_of_testBit_eq
  intro i
  simp only [Nat.testBit_and, Nat.testBit_or, tb_0080, tb_007f]
  obtain h | h : i < 7 ∨ 7 ≤ i := by omega
  all_goals simp (disch := omega) only [decide_eq_true, decide_eq_false]
  all_goals simp

theorem u8_or_0x80 (d : Nat) (h : d < 256) : u8 (d ||| 0x80) = d ||| 0x80 := by
  have hd : d < 2 ^ 8 := h
  exact Nat.mod_eq_of_lt (Nat.or_lt_two_pow hd (by norm_num))

theorem and_0x7f_idem (x : Nat) : x &&& 0x7f &&& 0x7f = x &&& 0x7f := by
  rw [Nat.and_assoc, Nat.and_self]

theorem after_reads_term_data {pia : Type} (n : Nat) (s : poly_state pia) :
    (poly_state.after_reads (n + 1) s).m_term_data = s.m_term_data &&& 0x7f := by
  induction n generalizing s with
  | zero => rfl
  | succ k ih =>
    have e : poly_state.after_reads (k + 1 + 1) s
        = poly_state.after_reads (k + 1) (poly_state.pia1_b_in s).2 := rfl
    rw [e, ih]
    exact and_0x7f_idem s.m_term_data

theorem find_last_some (p : map_entry → Bool) (l : List map_entry) (e : map_entry)
    (h : find_last p l = some e) : e ∈ l ∧ p e = true := by
  induction l with
  | nil => simp [find_last] at h
  | cons x xs ih =>
    unfold find_last at h
    cases hx : find_last p xs with
    | some f =>
      rw [hx] at h
      simp only [Option.some.injEq] at h
      subst h
      exact ⟨List.mem_cons_of_mem x (ih hx).1, (ih hx).2⟩
    | none =>
      rw [hx] at h
      by_cases hp : p x = true
      · simp only [hp, if_true, Option.some.injEq] at h
        subst h
        exact ⟨List.mem_cons_self _ _, hp⟩
      · simp [hp] at h

theorem poly_mem_no_mirror (e : map_entry) (he : e ∈ poly_mem.entries) : e.addrmirror = 0 := by
  simp only [poly_mem, List.mem_cons, List.mem_singleton, List.not_mem_nil, or_false] at he
  rcases he with rfl | rfl | rfl | rfl | rfl | rfl | rfl | rfl | rfl | rfl | rfl | rfl | rfl
    | rfl | rfl | rfl <;> rfl

theorem poly_read_congr (dev : map_entry → Nat → Nat) (m1 m2 : Nat → Nat) (a : Nat)
    (ha : a ≤ 0xffff) (h : m1 a = m2 a) : poly_read dev m1 a = poly_read dev m2 a := by
  have hm : a % 65536 = a := by omega
  unfold poly_read
  cases hl : poly_mem.lookup_read a with
  | none => rfl
  | some e =>
    have hz : e.addrmirror = 0 := poly_mem_no_mirror e (find_last_some _ _ e hl).1
    have hc : clear_bits (a &&& poly_mem.addrmask) e.addrmirror = a := by
      rw [hz, clear_bits_zero]
      show a &&& 0xffff = a
      rw [and_ffff, hm]
    simp only [hc, h]

theorem poly_lookup_write_dat (r : Nat) (h1 : 0xe050 ≤ r) (h2 : r ≤ 0xe05f) :
    poly_mem.lookup_write r = some (mk_ram 0xe050 0xe05f "") := by
  have hm : r % 65536 = r := by omega
  simp only [address_space.lookup_write, poly_mem, find_last,
    mk_rom, mk_ram, mk_r, mk_w, mk_rw, entry_covers, clear_bits_zero,
    and_ffff, hm, Option.isSome, Bool.true_and, Bool.false_and]
  simp (disch := omega) only [decide_eq_true, decide_eq_false]
  simp

theorem poly_lookup_read_dat (r : Nat) (h1 : 0xe050 ≤ r) (h2 : r ≤ 0xe05f) :
    poly_mem.lookup_read r = some (mk_ram 0xe050 0xe05f "") := by
  have hm : r % 65536 = r := by omega
  simp only [address_space.lookup_read, poly_mem, find_last,
    mk_rom, mk_ram, mk_r, mk_w, mk_rw, entry_covers, clear_bits_zero,
    and_ffff, hm, Option.isSome, Bool.true_and, Bool.false_and]
  simp (disch := omega) only [decide_eq_true, decide_eq_false]
  simp

theorem poly_machine_write_dat {pia devs : Type}
    (dev_w : map_entry → Nat → Nat → poly_machine pia devs → poly_machine pia devs)
    (m : poly_machine pia devs) (r v : Nat) (h1 : 0xe050 ≤ r) (h2 : r ≤ 0xe05f) :
    m.write dev_w r v = { m with mem := store m.mem r (u8 v) } := by
  have hm : r % 65536 = r := by omega
  unfold poly_machine.write
  rw [poly_lookup_write_dat r h1 h2]
  have hc : clear_bits (r &&& poly_mem.addrmask) (mk_ram 0xe050 0xe05f "").addrmirror = r := by
    show clear_bits (r &&& 0xffff) 0 = r
    rw [clear_bits_zero, and_ffff, hm]
  simp only [hc]
  rfl

theorem poly_read_dat (dev : map_entry → Nat → Nat) (mem : Nat → Nat) (r : Nat)
    (h1 : 0xe050 ≤ r) (h2 : r ≤ 0xe05f) : poly_read dev mem r = mem r := by
  have hm : r % 65536 = r := by omega
  unfold poly_read
  rw [poly_lookup_read_dat r h1 h2]
  have hc : clear_bits (r &&& poly_mem.addrmask) (mk_ram 0xe050 0xe05f "").addrmirror = r := by
    show clear_bits (r &&& 0xffff) 0 = r
    rw [clear_bits_zero, and_ffff, hm]
  simp only [hc]
  rfl

theorem poly_read_backed (dev : map_entry → Nat → Nat) (mem : Nat → Nat) (w : Nat)
    (hw : w ≤ 0xffff) (hb : poly_memory_backed w = true) : poly_read dev mem w = mem w := by
  have hm : w % 65536 = w := by omega
  unfold poly_memory_backed at hb
  unfold poly_read
  cases hl : poly_mem.lookup_read w with
  | none => rw [hl] at hb; simp at hb
  | some e =>
    rw [hl] at hb
    replace hb : (match e.read with
      | some .rom => true
      | some (.ram _) => true
      | _ => false) = true := hb
    have hz : e.addrmirror = 0 := poly_mem_no_mirror e (find_last_some _ _ e hl).1
    have hc : clear_bits (w &&& poly_mem.addrmask) e.addrmirror = w := by
      rw [hz, clear_bits_zero]
      show w &&& 0xffff = w
      rw [and_ffff, hm]
    simp only [hc]
    cases hr : e.read with
    | none => rw [hr] at hb; simp at hb
    | some t =>
      rw [hr] at hb
      cases t with
      | rom => rfl
      | ram sh => rfl
      | nop => simp at hb
      | member f => simp at hb
      | device tag func => simp at hb

theorem poly_machine_dat_frame {pia devs : Type}
    (dev_w : map_entry → Nat → Nat → poly_machine pia devs → poly_machine pia devs)
    (dev_r : poly_machine pia devs → map_entry → Nat → Nat)
    (m : poly_machine pia devs) (r v w : Nat)
    (h1 : 0xe050 ≤ r) (h2 : r ≤ 0xe05f) (hw : w ≤ 0xffff) (hne : w ≠ r)
    (hb : poly_memory_backed w = true) :
    (m.write dev_w r v).read dev_r w = m.mem w := by
  unfold poly_machine.read
  rw [poly_read_backed _ _ w hw hb, poly_machine_write_dat dev_w m r v h1 h2]
  simp [store, hne]

theorem poly_machine_dat_readback {pia devs : Type}
    (dev_w : map_entry → Nat → Nat → poly_machine pia devs → poly_machine pia devs)
    (dev_r : poly_machine pia devs → map_entry → Nat → Nat)
    (m : poly_machine pia devs) (r v : Nat) (h1 : 0xe050 ≤ r) (h2 : r ≤ 0xe05f) :
    (m.write dev_w r v).read dev_r r = u8 v := by
  unfold poly_machine.read
  rw [poly_read_dat _ _ r h1 h2, poly_machine_write_dat dev_w m r v h1 h2]
  simp [store]

theorem poly_not_bank_switching {pia devs : Type}
    (dev_w : map_entry → Nat → Nat → poly_machine pia devs → poly_machine pia devs)
    (dev_r : poly_machine pia devs → map_entry → Nat → Nat)
    (m0 : poly_machine pia devs) : ¬ poly_bank_switching dev_w dev_r := by
  rintro ⟨reg, w, c0, c2, h1, h2, hw, hb, hc, hall⟩
  by_cases hwr : w = reg
  · subst hwr
    have h := (hall { m0 with mem := fun _ => 3 }).1
    rw [poly_machine_dat_readback dev_w dev_r _ w 2 h1 h2] at h
    have h3 : u8 2 = 3 := h
    exact absurd h3 (by decide)
  · have h := hall { m0 with mem := fun a => if a = c2 then 1 else 0 }
    rw [poly_machine_dat_frame dev_w dev_r _ reg 2 w h1 h2 hw hwr hb,
      poly_machine_dat_frame dev_w dev_r _ reg 0 w h1 h2 hw hwr hb] at h
    have e2 : (if w = c2 then 1 else 0) = (1 : Nat) := by simpa using h.1
    have e0 : (if w = c2 then 1 else 0) = (0 : Nat) := by simpa [hc] using h.2
    omega

theorem reaches_self (g : bus_graph) (n x : Nat) : g.reaches n x x = true := by
  cases n <;> simp [bus_graph.reaches]

theorem superchs_map_lookup_ram (a : Nat) (h1 : 0x100000 ≤ a) (h2 : a ≤ 0x11ffff) :
    superchs_map.lookup_read a = some (mk_ram 0x100000 0x11ffff "ram") := by
  have hm : a % 16777216 = a := by omega
  simp only [address_space.lookup_read, superchs_map, find_last,
    mk_rom, mk_ram, mk_r, mk_w, mk_rw, entry_covers, clear_bits_zero, and_ffffff, hm,
    Option.isSome, Bool.true_and, Bool.false_and]
  simp (disch := omega) only [decide_eq_true, decide_eq_false]
  simp

theorem superchs_init_lookup_main_cycle (a : Nat) (h1 : 0x100000 ≤ a) (h2 : a ≤ 0x100003) :
    superchs_init_maincpu.lookup_read a
      = some (mk_r 0x100000 0x100003 (.member .main_cycle_r)) := by
  have hm : a % 16777216 = a := by omega
  simp only [address_space.lookup_read, superchs_init_maincpu, superchs_map,
    address_space.install_read_handler, List.cons_append, List.nil_append, find_last,
    mk_rom, mk_ram, mk_r, mk_w, mk_rw, entry_covers, clear_bits_zero, and_ffffff, hm,
    Option.isSome, Bool.true_and, Bool.false_and]
  simp (disch := omega) only [decide_eq_true, decide_eq_false]
  simp

theorem main_cycle_r_value (s : superchs_state) (o : Nat) : (s.main_cycle_r o).1 = s.m_ram 0 := by
  unfold superchs_state.main_cycle_r
  by_cases h : s.m_maincpu.pc = 0x702 <;> simp [h]

theorem sub_cycle_r_value (s : superchs_state) (o : Nat) :
    (s.sub_cycle_r o).1 = s.m_ram 2 &&& 0xffff := by
  unfold superchs_state.sub_cycle_r
  by_cases h : s.m_subcpu.pc = 0x454 <;> simp [h]

/-! ### Lemmas for the index bounds of shared RAM -/

theorem shared_ram_r_local (s t : superchs_state) (o : Nat)
    (h : s.m_shared_ram (o / 2) = t.m_shared_ram (o / 2)) :
    s.shared_ram_r o = t.shared_ram_r o := by
  unfold superchs_state.shared_ram_r
  rw [h]

theorem shared_ram_w_local (s t : superchs_state) (o d m : Nat)
    (h : s.m_shared_ram (o / 2) = t.m_shared_ram (o / 2)) :
    (s.shared_ram_w o d m).m_shared_ram (o / 2) = (t.shared_ram_w o d m).m_shared_ram (o / 2) := by
  unfold superchs_state.shared_ram_w
  by_cases hp : o &&& 1 = 0 <;> by_cases h1 : ACCESSING_BITS_8_15 m = true <;>
    by_cases h0 : ACCESSING_BITS_0_7 m = true <;>
    simp only [hp, h1, h0, if_true, if_false, poke_same, Bool.false_eq_true, h]

theorem cpub_window_lookup (a : Nat) (h1 : 0x800000 ≤ a) (h2 : a ≤ 0x80ffff) :
    superchs_cpub_map.lookup_read a = some shared_ram_window
    ∧ superchs_cpub_map.lookup_write a = some shared_ram_window := by
  have hm : a % 16777216 = a := by omega
  constructor
  · simp only [address_space.lookup_read, superchs_cpub_map, shared_ram_window, find_last,
      mk_rom, mk_ram, mk_r, mk_w, mk_rw, entry_covers, clear_bits_zero, and_ffffff, hm,
      Option.isSome, Bool.true_and, Bool.false_and]
    simp (disch := omega) only [decide_eq_true, decide_eq_false]
    simp
  · simp only [address_space.lookup_write, superchs_cpub_map, shared_ram_window, find_last,
      mk_rom, mk_ram, mk_r, mk_w, mk_rw, entry_covers, clear_bits_zero, and_ffffff, hm,
      Option.isSome, Bool.true_and, Bool.false_and]
    simp (disch := omega) only [decide_eq_true, decide_eq_false]
    simp

theorem chase3_window_lookup (a : Nat) (h1 : 0x800000 ≤ a) (h2 : a ≤ 0x80ffff) :
    chase3_cpub_map.lookup_read a = some shared_ram_window
    ∧ chase3_cpub_map.lookup_write a = some shared_ram_window := by
  have hm : a % 16777216 = a := by omega
  constructor
  · simp only [address_space.lookup_read, chase3_cpub_map, shared_ram_window, find_last,
      mk_rom, mk_ram, mk_r, mk_w, mk_rw, entry_covers, clear_bits_zero, and_ffffff, hm,
      Option.isSome, Bool.true_and, Bool.false_and]
    simp (disch := omega) only [decide_eq_true, decide_eq_false]
    simp
  · simp only [address_space.lookup_write, chase3_cpub_map, shared_ram_window, find_last,
      mk_rom, mk_ram, mk_r, mk_w, mk_rw, entry_covers, clear_bits_zero, and_ffffff, hm,
      Option.isSome, Bool.true_and, Bool.false_and]
    simp (disch := omega) only [decide_eq_true, decide_eq_false]
    simp

theorem cpub_window_offset (a : Nat) (h1 : 0x800000 ≤ a) (h2 : a ≤ 0x80ffff) :
    superchs_cpub_map.offset_in shared_ram_window a = a - 0x800000
    ∧ chase3_cpub_map.offset_in shared_ram_window a = a - 0x800000 := by
  have hm : a % 16777216 = a := by omega
  constructor <;>
    simp only [address_space.offset_in, superchs_cpub_map, chase3_cpub_map, shared_ram_window,
      mk_rw, clear_bits_zero, and_ffffff, hm]

/-! ## Part 3: the claims -/

/-- C1: lane masking on the sub CPU's 16-bit view of shared RAM.  For every state, word
offset `o`, data `d` and byte-lane mask `m` among `0x0000`, `0x00ff`, `0xff00`, `0xffff`,
reading offset `o` after `shared_ram_w o d m` gives `(old & ~m) | (d & m)`, where `old` is
what `shared_ram_r o` returned before the write. -/
theorem C1_lane_masking (s : superchs_state) (o d m : Nat)
    (hm : m = 0x0000 ∨ m = 0x00ff ∨ m = 0xff00 ∨ m = 0xffff) :
    (s.shared_ram_w o d m).shared_ram_r o
      = (s.shared_ram_r o &&& (0xffff ^^^ m)) ||| (d &&& m) := by
  obtain ⟨a1, a2, a3, a4, a5, a6, a7, a8⟩ := acc_lanes
  have x1 : (0xffff ^^^ 0x0000 : Nat) = 0xffff := rfl
  have x2 : (0xffff ^^^ 0x00ff : Nat) = 0xff00 := rfl
  have x3 : (0xffff ^^^ 0xff00 : Nat) = 0x00ff := rfl
  have x4 : (0xffff ^^^ 0xffff : Nat) = 0 := rfl
  by_cases hp : o &&& 1 = 0 <;> rcases hm with rfl | rfl | rfl | rfl <;>
    simp only [superchs_state.shared_ram_r, superchs_state.shared_ram_w, hp, if_true, if_false,
      a1, a2, a3, a4, a5, a6, a7, a8, x1, x2, x3, x4, poke_same, Bool.false_eq_true] <;>
    apply Nat.eq_of_testBit_eq <;> intro i <;>
    simp only [Nat.testBit_shiftRight, Nat.testBit_shiftLeft, Nat.testBit_and, Nat.testBit_or,
      tb_u32, tb_ffff0000, tb_0000ffff, tb_ff00, tb_00ff, tb_00ffffff,
      tb_ff00ffff, tb_ffff00ff, tb_ffffff00, Nat.shiftLeft_zero, Nat.zero_testBit] <;>
    (obtain h | h | h : i < 8 ∨ (8 ≤ i ∧ i < 16) ∨ 16 ≤ i := by omega) <;>
    simp (disch := omega) only [decide_eq_true, decide_eq_false, Nat.add_sub_cancel_left] <;>
    simp

/-- Witness of C1: the cell holds `0x1234`, a low-byte write of `0x56` gives `0x1256`. -/
theorem C1_lane_masking_witness :
    ((superchs_const 0x12340000).shared_ram_w 0 0x56 0x00ff).shared_ram_r 0
        = ((superchs_const 0x12340000).shared_ram_r 0 &&& (0xffff ^^^ 0x00ff))
            ||| (0x56 &&& 0x00ff)
      ∧ (superchs_const 0x12340000).shared_ram_r 0 = 0x1234
      ∧ ((superchs_const 0x12340000).shared_ram_r 0 &&& (0xffff ^^^ 0x00ff)) ||| (0x56 &&& 0x00ff)
        = 0x1256 :=
  ⟨C1_lane_masking (superchs_const 0x12340000) 0 0x56 0x00ff (by decide), by decide, by decide⟩

/-- C2: priority, the last install wins.  After DRIVER_INIT a main-CPU read at any address
of `0x100000..0x100003` resolves to `main_cycle_r`, installed after the RAM range
`0x100000..0x11ffff`, while a read at `0x100004..0x11ffff` still resolves to that RAM;
a sub-CPU read at `0x80000a..0x80000b` resolves to `sub_cycle_r` while every other address
of `0x800000..0x80ffff` resolves to `shared_ram_r`. -/
theorem C2_last_install_wins :
    (∀ a, 0x100000 ≤ a → a ≤ 0x100003 →
      superchs_init_maincpu.lookup_read a
        = some (mk_r 0x100000 0x100003 (.member .main_cycle_r)))
    ∧ (∀ a, 0x100004 ≤ a → a ≤ 0x11ffff →
      superchs_init_maincpu.lookup_read a = some (mk_ram 0x100000 0x11ffff "ram"))
    ∧ (∀ a, 0x80000a ≤ a → a ≤ 0x80000b →
      superchs_init_subcpu.lookup_read a
        = some (mk_r 0x80000a 0x80000b (.member .sub_cycle_r)))
    ∧ (∀ a, 0x800000 ≤ a → a ≤ 0x80ffff → ¬ (0x80000a ≤ a ∧ a ≤ 0x80000b) →
      superchs_init_subcpu.lookup_read a
        = some (mk_rw 0x800000 0x80ffff (.member .shared_ram_r) (.member .shared_ram_w))) := by
  refine ⟨?_, ?_, ?_, ?_⟩
  · intro a h1 h2
    have hm : a % 16777216 = a := by omega
    simp only [address_space.lookup_read, superchs_init_maincpu, superchs_map,
      address_space.install_read_handler, List.cons_append, List.nil_append, find_last,
      mk_rom, mk_ram, mk_r, mk_w, mk_rw, entry_covers, clear_bits_zero, and_ffffff, hm,
      Option.isSome, Bool.true_and, Bool.false_and]
    simp (disch := omega) only [decide_eq_true, decide_eq_false]
    simp
  · intro a h1 h2
    have hm : a % 16777216 = a := by omega
    simp only [address_space.lookup_read, superchs_init_maincpu, superchs_map,
      address_space.install_read_handler, List.cons_append, List.nil_append, find_last,
      mk_rom, mk_ram, mk_r, mk_w, mk_rw, entry_covers, clear_bits_zero, and_ffffff, hm,
      Option.isSome, Bool.true_and, Bool.false_and]
    simp (disch := omega) only [decide_eq_true, decide_eq_false]
    simp
  · intro a h1 h2
    have hm : a % 16777216 = a := by omega
    simp only [address_space.lookup_read, superchs_init_subcpu, superchs_cpub_map,
      address_space.install_read_handler, List.cons_append, List.nil_append, find_last,
      mk_rom, mk_ram, mk_r, mk_w, mk_rw, entry_covers, clear_bits_zero, and_ffffff, hm,
      Option.isSome, Bool.true_and, Bool.false_and]
    simp (disch := omega) only [decide_eq_true, decide_eq_false]
    simp
  · intro a h1 h2 h3
    have hm : a % 16777216 = a := by omega
    simp only [address_space.lookup_read, superchs_init_subcpu, superchs_cpub_map,
      address_space.install_read_handler, List.cons_append, List.nil_append, find_last,
      mk_rom, mk_ram, mk_r, mk_w, mk_rw, entry_covers, clear_bits_zero, and_ffffff, hm,
      Option.isSome, Bool.true_and, Bool.false_and]
    simp (disch := omega) only [decide_eq_true, decide_eq_false]
    simp

/-- Instances of C2 at the addresses `0x100000`, `0x100004`, `0x80000a` and `0x80000c`. -/
theorem C2_last_install_wins_witness :
    superchs_init_maincpu.lookup_read 0x100000
        = some (mk_r 0x100000 0x100003 (.member .main_cycle_r))
    ∧ superchs_init_maincpu.lookup_read 0x100004 = some (mk_ram 0x100000 0x11ffff "ram")
    ∧ superchs_init_subcpu.lookup_read 0x80000a
        = some (mk_r 0x80000a 0x80000b (.member .sub_cycle_r))
    ∧ superchs_init_subcpu.lookup_read 0x80000c
        = some (mk_rw 0x800000 0x80ffff (.member .shared_ram_r) (.member .shared_ram_w)) :=
  ⟨C2_last_install_wins.1 0x100000 (by decide) (by decide),
   C2_last_install_wins.2.1 0x100004 (by decide) (by decide),
   C2_last_install_wins.2.2.1 0x80000a (by decide) (by decide),
   C2_last_install_wins.2.2.2 0x80000c (by decide) (by decide) (by decide)⟩

/-- C3: mirroring in the cvicny program map.  For every address `a` of `0x0800..0x0BFF`
and every state, a read at `a | 0x400` returns the same stored byte as a read at `a`, and
a write of the byte `v` at `a | 0x400` followed by a read at `a` returns `v`. -/
theorem C3_cvicny_mirror (s : cvicny_state) (a v : Nat)
    (h1 : 0x0800 ≤ a) (h2 : a ≤ 0x0bff) (hv : v < 256) :
    s.read (a ||| 0x400) = s.read a
    ∧ s.read a = some (s.ram (a - 0x0800))
    ∧ (s.write (a ||| 0x400) v).read a = some v := by
  have e : a ||| 0x400 = a + 1024 := by rw [or_0x400]; omega
  have hv8 : u8 v = v := Nat.mod_eq_of_lt hv
  rw [e, cvicny_read_ram s (a + 1024) (by omega) (by omega),
    cvicny_read_ram s a h1 (by omega), cvicny_write_ram s (a + 1024) v (by omega) (by omega),
    cvicny_read_ram _ a h1 (by omega)]
  have m1 : (a + 1024) % 1024 = a % 1024 := by omega
  have m2 : a % 1024 = a - 2048 := by omega
  simp only [m1, m2, store, if_true, hv8, and_self]

/-- Witness of C3: `write(0x0C00, 0x5a)` then `read(0x0800)` returns `0x5a`. -/
theorem C3_cvicny_mirror_witness :
    (0x0800 ||| 0x400 = 0x0c00)
    ∧ (cvicny_zero.write (0x0800 ||| 0x400) 0x5a).read 0x0800 = some 0x5a :=
  ⟨by decide, (C3_cvicny_mirror cvicny_zero 0x0800 0x5a (by decide) (by decide) (by decide)).2.2⟩

/-- C4: unmapped reads return the open-bus constant selected by `unmap_value_high`.  In
the cvicny map a read at an address covered by no read-capable entry returns `0xFF`, in
particular at the write-only ranges `0x1800..0x27ff` and everywhere in `0x2800..0xffff`;
in the poly map the same holds, in particular at `0xe006` and in the gaps of
`0xe000..0xe7ff`. -/
theorem C4_unmapped_read_high :
    (∀ (s : cvicny_state) (a : Nat),
      (∀ e ∈ cvicny_mem.entries, e.read.isSome = true →
        entry_covers e (a &&& cvicny_mem.addrmask) = false) → s.read a = some 0xff)
    ∧ (∀ (s : cvicny_state) (a : Nat), 0x1800 ≤ a → a ≤ 0xffff → s.read a = some 0xff)
    ∧ (∀ (dev : map_entry → Nat → Nat) (mem : Nat → Nat) (a : Nat),
      (∀ e ∈ poly_mem.entries, e.read.isSome = true →
        entry_covers e (a &&& poly_mem.addrmask) = false) → poly_read dev mem a = 0xff)
    ∧ (∀ (dev : map_entry → Nat → Nat) (mem : Nat → Nat) (a : Nat),
      ((0xe006 ≤ a ∧ a ≤ 0xe00b) ∨ (0xe010 ≤ a ∧ a ≤ 0xe01f) ∨ (0xe028 ≤ a ∧ a ≤ 0xe02f)
        ∨ (0xe038 ≤ a ∧ a ≤ 0xe03f) ∨ (0xe041 ≤ a ∧ a ≤ 0xe04f) ∨ (0xe060 ≤ a ∧ a ≤ 0xe7ff)) →
      poly_read dev mem a = 0xff) := by
  refine ⟨?_, ?_, ?_, ?_⟩
  · intro s a h
    have hn : cvicny_mem.lookup_read a = none := by
      apply find_last_eq_none
      intro e he
      cases hr : e.read.isSome
      · rfl
      · simpa using h e he hr
    unfold cvicny_state.read
    rw [hn]
    rfl
  · intro s a h1 h2
    have hm : a % 65536 = a := by omega
    have hn : cvicny_mem.lookup_read a = none := by
      simp only [address_space.lookup_read, cvicny_mem, find_last,
        mk_rom, mk_ram, mk_r, mk_w, map_entry.mirror, entry_covers, clear_bits_zero,
        clear_bits_0x400, and_ffff, hm, Option.isSome, Bool.true_and, Bool.false_and]
      simp (disch := omega) only [decide_eq_true, decide_eq_false]
      simp
    unfold cvicny_state.read
    rw [hn]
    rfl
  · intro dev mem a h
    have hn : poly_mem.lookup_read a = none := by
      apply find_last_eq_none
      intro e he
      cases hr : e.read.isSome
      · rfl
      · simpa using h e he hr
    unfold poly_read
    rw [hn]
    rfl
  · intro dev mem a h
    have hm : a % 65536 = a := by omega
    have hn : poly_mem.lookup_read a = none := by
      simp only [address_space.lookup_read, poly_mem, find_last,
        mk_rom, mk_ram, mk_r, mk_w, mk_rw, entry_covers, clear_bits_zero,
        and_ffff, hm, Option.isSome, Bool.true_and, Bool.false_and]
      simp (disch := omega) only [decide_eq_true, decide_eq_false]
      simp
    unfold poly_read
    rw [hn]
    rfl

/-- Instances of C4: cvicny reads at `0x1800` and `0xffff`, poly reads at `0xe006` and
`0xe7ff`, all return `0xFF`. -/
theorem C4_unmapped_read_high_witness :
    cvicny_zero.read 0x1800 = some 0xff ∧ cvicny_zero.read 0xffff = some 0xff
    ∧ poly_read (fun _ _ => 0) (fun _ => 0) 0xe006 = 0xff
    ∧ poly_read (fun _ _ => 0) (fun _ => 0) 0xe7ff = 0xff :=
  ⟨C4_unmapped_read_high.2.1 cvicny_zero 0x1800 (by decide) (by decide),
   C4_unmapped_read_high.2.1 cvicny_zero 0xffff (by decide) (by decide),
   C4_unmapped_read_high.2.2.2 (fun _ _ => 0) (fun _ => 0) 0xe006
     (Or.inl ⟨by decide, by decide⟩),
   C4_unmapped_read_high.2.2.2 (fun _ _ => 0) (fun _ => 0) 0xe7ff
     (Or.inr (Or.inr (Or.inr (Or.inr (Or.inr ⟨by decide, by decide⟩)))))⟩

/-- C5: writes with no installed write handler are discarded.  In the cvicny map a write
to the ROM range `0x0000..0x07ff`, the read-only key range `0x1000..0x17ff` or the
unmapped range `0x2800..0xffff` leaves the whole state (ROM, RAM, selected digit, digit
outputs) unchanged, so every later read returns what it returned before; the same holds
for a write at any address of the ROM-only ampscarp map. -/
theorem C5_unhandled_write_discarded :
    (∀ (s : cvicny_state) (a v : Nat),
      (a ≤ 0x07ff ∨ (0x1000 ≤ a ∧ a ≤ 0x17ff) ∨ (0x2800 ≤ a ∧ a ≤ 0xffff)) →
      s.write a v = s ∧ ∀ b, (s.write a v).read b = s.read b)
    ∧ (∀ (s : ampscarp_state) (a v : Nat), a ≤ 0xffff →
      s.write a v = s ∧ ∀ b, (s.write a v).read b = s.read b) := by
  constructor
  · intro s a v h
    have hm : a % 65536 = a := by omega
    have hn : cvicny_mem.lookup_write a = none := by
      simp only [address_space.lookup_write, cvicny_mem, find_last,
        mk_rom, mk_ram, mk_r, mk_w, map_entry.mirror, entry_covers, clear_bits_zero,
        clear_bits_0x400, and_ffff, hm, Option.isSome, Bool.true_and, Bool.false_and]
      simp (disch := omega) only [decide_eq_true, decide_eq_false]
      simp
    have hw : s.write a v = s := by unfold cvicny_state.write; rw [hn]
    exact ⟨hw, fun b => by rw [hw]⟩
  · intro s a v h
    have hn : mem_map.lookup_write a = none := by
      simp only [address_space.lookup_write, mem_map, find_last, mk_rom,
        Option.isSome, Bool.false_and]
      simp
    have hw : s.write a v = s := by unfold ampscarp_state.write; rw [hn]
    exact ⟨hw, fun b => by rw [hw]⟩

/-- Instances of C5: a cvicny write at `0x0000` and an ampscarp write at `0x1234` change
no later read. -/
theorem C5_unhandled_write_discarded_witness :
    (cvicny_zero.write 0x0000 0xaa).read 0x0000 = cvicny_zero.read 0x0000
    ∧ (ampscarp_seven.write 0x1234 0xaa).read 0x1234 = ampscarp_seven.read 0x1234 :=
  ⟨(C5_unhandled_write_discarded.1 cvicny_zero 0x0000 0xaa (by decide)).2 0x0000,
   (C5_unhandled_write_discarded.2 ampscarp_seven 0x1234 0xaa (by decide)).2 0x1234⟩

/-- C6: read-modify-write frame of `shared_ram_w`.  For every state, offset `o`, data and
access mask the write changes no word of shared RAM other than word `o / 2`; in word
`o / 2` the low 16 bits are unchanged when `o` is even and the high 16 bits are unchanged
when `o` is odd. -/
theorem C6_shared_ram_w_frame (s : superchs_state) (o d m : Nat) :
    (∀ j, j ≠ o / 2 → (s.shared_ram_w o d m).m_shared_ram j = s.m_shared_ram j)
    ∧ (o % 2 = 0 →
        (s.shared_ram_w o d m).m_shared_ram (o / 2) % 2 ^ 16 = s.m_shared_ram (o / 2) % 2 ^ 16)
    ∧ (o % 2 = 1 →
        (s.shared_ram_w o d m).m_shared_ram (o / 2) &&& 0xffff0000
          = s.m_shared_ram (o / 2) &&& 0xffff0000) := by
  refine ⟨fun j hj => shared_ram_w_other s o d m j hj, ?_, ?_⟩
  · intro he
    have hp : o &&& 1 = 0 := by rw [and_one]; exact he
    unfold superchs_state.shared_ram_w
    by_cases h1 : ACCESSING_BITS_8_15 m = true <;> by_cases h0 : ACCESSING_BITS_0_7 m = true <;>
      simp only [hp, h1, h0, if_true, if_false, poke_same, Bool.false_eq_true] <;>
      apply Nat.eq_of_testBit_eq <;> intro i <;>
      simp only [Nat.testBit_shiftLeft, Nat.testBit_and, Nat.testBit_or, Nat.testBit_mod_two_pow,
        tb_u32, tb_00ffffff, tb_ff00ffff] <;>
      (obtain h | h : i < 16 ∨ 16 ≤ i := by omega) <;>
      simp (disch := omega) only [decide_eq_true, decide_eq_false] <;>
      simp
  · intro ho
    have hp : ¬ (o &&& 1 = 0) := by rw [and_one]; omega
    unfold superchs_state.shared_ram_w
    by_cases h1 : ACCESSING_BITS_8_15 m = true <;> by_cases h0 : ACCESSING_BITS_0_7 m = true <;>
      simp only [hp, h1, h0, if_true, if_false, poke_same, Bool.false_eq_true] <;>
      apply Nat.eq_of_testBit_eq <;> intro i <;>
      simp only [Nat.testBit_shiftLeft, Nat.testBit_and, Nat.testBit_or, Nat.shiftLeft_zero,
        tb_u32, tb_ffff00ff, tb_ffffff00, tb_ffff0000, tb_ff00, tb_00ff] <;>
      (obtain h | h | h : i < 16 ∨ (16 ≤ i ∧ i < 32) ∨ 32 ≤ i := by omega) <;>
      simp (disch := omega) only [decide_eq_true, decide_eq_false] <;>
      simp

/-- C7: read lane extraction in `shared_ram_r`.  For every state and offset `o` the value
read is the upper 16 bits of word `o / 2` when `o` is even and the lower 16 bits when `o`
is odd; hence, for a 32-bit word `k`, `(shared_ram_r(2k) << 16) | shared_ram_r(2k+1)` is
word `k`. -/
theorem C7_read_lane_extraction (s : superchs_state) (o k : Nat) :
    (o % 2 = 0 → s.shared_ram_r o = s.m_shared_ram (o / 2) / 2 ^ 16 % 2 ^ 16)
    ∧ (o % 2 = 1 → s.shared_ram_r o = s.m_shared_ram (o / 2) % 2 ^ 16)
    ∧ (s.m_shared_ram k < 2 ^ 32 →
        (s.shared_ram_r (2 * k) <<< 16) ||| s.shared_ram_r (2 * k + 1) = s.m_shared_ram k) := by
  have hup : ∀ w : Nat, (w &&& 0xffff0000) >>> 16 = w / 2 ^ 16 % 2 ^ 16 := by
    intro w
    apply Nat.eq_of_testBit_eq
    intro i
    simp only [Nat.testBit_shiftRight, Nat.testBit_and, tb_ffff0000, Nat.testBit_mod_two_pow,
      ← Nat.shiftRight_eq_div_pow]
    obtain h | h : i < 16 ∨ 16 ≤ i := by omega
    all_goals simp (disch := omega) only [decide_eq_true, decide_eq_false]
    all_goals simp
  have hlo : ∀ w : Nat, w &&& 0x0000ffff = w % 2 ^ 16 := fun w =>
    Nat.and_pow_two_sub_one_eq_mod w 16
  refine ⟨?_, ?_, ?_⟩
  · intro he
    have hp : o &&& 1 = 0 := by rw [and_one]; exact he
    simp only [superchs_state.shared_ram_r, hp, if_true, hup]
  · intro ho
    have hp : ¬ (o &&& 1 = 0) := by rw [and_one]; omega
    simp only [superchs_state.shared_ram_r, hp, if_false, hlo]
  · intro hk
    have hp0 : 2 * k &&& 1 = 0 := by rw [and_one]; omega
    have hp1 : ¬ ((2 * k + 1) &&& 1 = 0) := by rw [and_one]; omega
    have hd0 : 2 * k / 2 = k := by omega
    have hd1 : (2 * k + 1) / 2 = k := by omega
    simp only [superchs_state.shared_ram_r, hp0, hp1, if_true, if_false, hd0, hd1]
    apply Nat.eq_of_testBit_eq
    intro i
    have hhi : 32 ≤ i → (s.m_shared_ram k).testBit i = false := fun h =>
      Nat.testBit_lt_two_pow (lt_of_lt_of_le hk (Nat.pow_le_pow_right (by norm_num) h))
    simp only [Nat.testBit_shiftRight, Nat.testBit_shiftLeft, Nat.testBit_and, Nat.testBit_or,
      tb_ffff0000, tb_0000ffff]
    obtain h | h | h : i < 16 ∨ (16 ≤ i ∧ i < 32) ∨ 32 ≤ i := by omega
    · simp (disch := omega) only [decide_eq_true, decide_eq_false]
      simp
    · simp (disch := omega) only [decide_eq_true, decide_eq_false, Nat.add_sub_cancel']
      simp
    · rw [hhi h]
      simp (disch := omega) only [decide_eq_true, decide_eq_false, Nat.add_sub_cancel']
      simp

/-- Witness of C7 on a state whose words all hold `0x12345678`. -/
theorem C7_read_lane_extraction_witness :
    (superchs_const 0x12345678).m_shared_ram 3 < 2 ^ 32
    ∧ ((superchs_const 0x12345678).shared_ram_r (2 * 3) <<< 16)
        ||| (superchs_const 0x12345678).shared_ram_r (2 * 3 + 1)
      = (superchs_const 0x12345678).m_shared_ram 3 :=
  ⟨by decide, (C7_read_lane_extraction (superchs_const 0x12345678) 6 3).2.2 (by decide)⟩

/-- C8: cross-CPU visibility of shared RAM.  For every state, offset `o` of the sub CPU's
window and 16-bit data `d`, right after `shared_ram_w o d 0xffff` the word the main CPU
reads through the share `"shared_ram"` at `0x200000 + 4 * (o / 2)` is word `o / 2` of the
written state, and it holds `d` in its upper 16 bits when `o` is even and in its lower
16 bits when `o` is odd. -/
theorem C8_cross_cpu_visibility (ext : map_entry → Nat → Nat) (s : superchs_state)
    (o d : Nat) (ho : o < 0x8000) (hd : d < 2 ^ 16) :
    (superchs_state.maincpu_read32 ext (s.shared_ram_w o d 0xffff) (0x200000 + 4 * (o / 2))).1
        = (s.shared_ram_w o d 0xffff).m_shared_ram (o / 2)
    ∧ (o % 2 = 0 →
        (superchs_state.maincpu_read32 ext (s.shared_ram_w o d 0xffff)
          (0x200000 + 4 * (o / 2))).1 / 2 ^ 16 = d)
    ∧ (o % 2 = 1 →
        (superchs_state.maincpu_read32 ext (s.shared_ram_w o d 0xffff)
          (0x200000 + 4 * (o / 2))).1 % 2 ^ 16 = d) := by
  have hm : (0x200000 + 4 * (o / 2)) % 16777216 = 0x200000 + 4 * (o / 2) := by omega
  have hl : superchs_init_maincpu.lookup_read (0x200000 + 4 * (o / 2))
      = some (mk_ram 0x200000 0x20ffff "shared_ram") := by
    simp only [address_space.lookup_read, superchs_init_maincpu, superchs_map,
      address_space.install_read_handler, List.cons_append, List.nil_append, find_last,
      mk_rom, mk_ram, mk_r, mk_w, mk_rw, entry_covers, clear_bits_zero, and_ffffff, hm,
      Option.isSome, Bool.true_and, Bool.false_and]
    simp (disch := omega) only [decide_eq_true, decide_eq_false]
    simp
  have hoff : superchs_init_maincpu.offset_in (mk_ram 0x200000 0x20ffff "shared_ram")
      (0x200000 + 4 * (o / 2)) / 4 = o / 2 := by
    simp only [address_space.offset_in, superchs_init_maincpu, superchs_map,
      address_space.install_read_handler, mk_ram, clear_bits_zero, and_ffffff, hm]
    omega
  have hr : ∀ t : superchs_state,
      superchs_state.maincpu_read32 ext t (0x200000 + 4 * (o / 2))
        = (t.m_shared_ram (o / 2), t) := by
    intro t
    unfold superchs_state.maincpu_read32
    rw [hl]
    simp only [hoff]
    rfl
  obtain ⟨a1, a2, a3, a4, a5, a6, a7, a8⟩ := acc_lanes
  refine ⟨by rw [hr], ?_, ?_⟩
  · intro he
    have hp : o &&& 1 = 0 := by rw [and_one]; exact he
    rw [hr]
    simp only [superchs_state.shared_ram_w, hp, if_true, a7, a8, poke_same]
    have hw : ∀ w : Nat,
        u32 ((u32 ((w &&& 0x00ffffff) ||| ((d &&& 0xff00) <<< 16)) &&& 0xff00ffff)
          ||| ((d &&& 0x00ff) <<< 16)) >>> 16 = d % 2 ^ 16 := by
      intro w
      apply Nat.eq_of_testBit_eq
      intro i
      simp only [Nat.testBit_shiftLeft, Nat.testBit_shiftRight, Nat.testBit_and,
        Nat.testBit_or, tb_u32, Nat.testBit_mod_two_pow, tb_00ffffff, tb_ff00ffff, tb_ff00,
        tb_00ff]
      obtain h | h | h : i < 8 ∨ (8 ≤ i ∧ i < 16) ∨ 16 ≤ i := by omega
      all_goals
        simp (disch := omega) only [decide_eq_true, decide_eq_false, Nat.add_sub_cancel_left]
      all_goals simp
    rw [← Nat.shiftRight_eq_div_pow, hw, Nat.mod_eq_of_lt hd]
  · intro hodd
    have hp : ¬ (o &&& 1 = 0) := by rw [and_one]; omega
    rw [hr]
    simp only [superchs_state.shared_ram_w, hp, if_false, if_true, a7, a8, poke_same]
    have hw : ∀ w : Nat,
        u32 ((u32 ((w &&& 0xffff00ff) ||| ((d &&& 0xff00) <<< 0)) &&& 0xffffff00)
          ||| ((d &&& 0x00ff) <<< 0)) % 2 ^ 16 = d % 2 ^ 16 := by
      intro w
      apply Nat.eq_of_testBit_eq
      intro i
      simp only [Nat.testBit_shiftLeft, Nat.testBit_and, Nat.testBit_or, tb_u32,
        Nat.testBit_mod_two_pow, tb_ffff00ff, tb_ffffff00, tb_ff00, tb_00ff, Nat.shiftLeft_zero]
      obtain h | h | h : i < 8 ∨ (8 ≤ i ∧ i < 16) ∨ 16 ≤ i := by omega
      all_goals simp (disch := omega) only [decide_eq_true, decide_eq_false]
      all_goals simp
    rw [hw, Nat.mod_eq_of_lt hd]

/-- Witness of C8: the sub CPU writes `0xbeef` at offset 6, the main CPU reads
`0xbeef5678` at `0x20000c`. -/
theorem C8_cross_cpu_visibility_witness :
    (superchs_state.maincpu_read32 (fun _ _ => 0)
        ((superchs_const 0x12345678).shared_ram_w 6 0xbeef 0xffff) (0x200000 + 4 * (6 / 2))).1
      = ((superchs_const 0x12345678).shared_ram_w 6 0xbeef 0xffff).m_shared_ram (6 / 2)
    ∧ ((superchs_const 0x12345678).shared_ram_w 6 0xbeef 0xffff).m_shared_ram (6 / 2)
      = 0xbeef5678 :=
  ⟨(C8_cross_cpu_visibility (fun _ _ => 0) (superchs_const 0x12345678) 6 0xbeef
      (by decide) (by decide)).1, by decide⟩

/-- C9: mirror expansion of the cvicny RAM entry (range `0x0800..0x0BFF`, mirror mask
`0x400`).  The addresses obtained by OR-ing a subset of the bits of the mask into an
address of the base range are exactly the addresses `a` with `a & ~0x400` in the base
range, both sets are `0x0800..0x0FFF`, and no other entry of `cvicny_mem` covers an
address of this set. -/
theorem C9_mirror_expansion (a : Nat) :
    cvicny_ram_entry ∈ cvicny_mem.entries
    ∧ (mirror_aliases cvicny_ram_entry a ↔ entry_covers cvicny_ram_entry a = true)
    ∧ (entry_covers cvicny_ram_entry a = true ↔ (0x0800 ≤ a ∧ a ≤ 0x0fff))
    ∧ (entry_covers cvicny_ram_entry a = true →
        ∀ e ∈ cvicny_mem.entries, e ≠ cvicny_ram_entry → entry_covers e a = false) := by
  have hc : entry_covers cvicny_ram_entry a = true ↔ (0x0800 ≤ a ∧ a ≤ 0x0fff) := by
    simp only [entry_covers, cvicny_ram_entry, mk_ram, map_entry.mirror, clear_bits_0x400,
      decide_eq_true_eq]
    omega
  have ha : mirror_aliases cvicny_ram_entry a ↔ (0x0800 ≤ a ∧ a ≤ 0x0fff) := by
    simp only [mirror_aliases, cvicny_ram_entry, mk_ram, map_entry.mirror]
    constructor
    · rintro ⟨b, sub, h1, h2, h3, rfl⟩
      rw [and_0x400] at h3
      have hs : sub = 0 ∨ sub = 0x400 := by omega
      rcases hs with rfl | rfl
      · rw [Nat.or_zero]; omega
      · rw [or_0x400]; omega
    · rintro ⟨h1, h2⟩
      by_cases hlt : a ≤ 0x0bff
      · exact ⟨a, 0, h1, hlt, by simp, by simp⟩
      · refine ⟨a - 0x400, 0x400, by omega, by omega, by decide, ?_⟩
        rw [or_0x400]; omega
  refine ⟨by simp [cvicny_mem, cvicny_ram_entry], ha.trans hc.symm, hc, ?_⟩
  intro h e he hne
  have hr := hc.mp h
  simp only [cvicny_mem, List.mem_cons, List.mem_singleton, List.not_mem_nil, or_false] at he
  rcases he with rfl | rfl | rfl | rfl | rfl
  · simp only [entry_covers, mk_rom, clear_bits_zero, decide_eq_false_iff_not]; omega
  · exact absurd rfl hne
  · simp only [entry_covers, mk_r, clear_bits_zero, decide_eq_false_iff_not]; omega
  · simp only [entry_covers, mk_w, clear_bits_zero, decide_eq_false_iff_not]; omega
  · simp only [entry_covers, mk_w, clear_bits_zero, decide_eq_false_iff_not]; omega

/-- Counterexample to C10 as stated: with the main CPU at `pc = 0x702` and running, the
read handler `main_cycle_r` leaves the CPU suspended, so the machine state changes. -/
theorem C10_counterexample :
    (superchs_at_0x702.main_cycle_r 0).2.m_maincpu ≠ superchs_at_0x702.m_maincpu := by
  decide

/-- C10 (amended): every read handler returns a value determined by the current state.
`main_cycle_r` returns word 0 of `m_ram` and `sub_cycle_r` the low 16 bits of word 2; both
leave `m_ram`, `m_shared_ram`, the program counters and the other CPU unchanged, leave the
whole state unchanged unless the program counter of their CPU is `0x702` (main) or `0x454`
(sub), in which case exactly that CPU is put to `spin_until_interrupt`, and a second read
returns the same value.  A sub-CPU read resolved to `shared_ram_r` returns the state it
was given, and a cvicny read resolved to `key_r` is `key_r` of the state, whatever the
offset. -/
theorem C10_read_handlers (ext : map_entry → Nat → Nat) (s : superchs_state)
    (cs : cvicny_state) (o : Nat) :
    ((s.main_cycle_r o).1 = s.m_ram 0
      ∧ (s.main_cycle_r o).2.m_ram = s.m_ram
      ∧ (s.main_cycle_r o).2.m_shared_ram = s.m_shared_ram
      ∧ (s.main_cycle_r o).2.m_subcpu = s.m_subcpu
      ∧ (s.main_cycle_r o).2.m_maincpu.pc = s.m_maincpu.pc
      ∧ (s.m_maincpu.pc ≠ 0x702 → (s.main_cycle_r o).2 = s)
      ∧ (s.m_maincpu.pc = 0x702 →
          (s.main_cycle_r o).2.m_maincpu = s.m_maincpu.spin_until_interrupt)
      ∧ ((s.main_cycle_r o).2.main_cycle_r o).1 = (s.main_cycle_r o).1)
    ∧ ((s.sub_cycle_r o).1 = s.m_ram 2 &&& 0xffff
      ∧ (s.sub_cycle_r o).2.m_ram = s.m_ram
      ∧ (s.sub_cycle_r o).2.m_shared_ram = s.m_shared_ram
      ∧ (s.sub_cycle_r o).2.m_maincpu = s.m_maincpu
      ∧ (s.sub_cycle_r o).2.m_subcpu.pc = s.m_subcpu.pc
      ∧ (s.m_subcpu.pc ≠ 0x454 → (s.sub_cycle_r o).2 = s)
      ∧ (s.m_subcpu.pc = 0x454 →
          (s.sub_cycle_r o).2.m_subcpu = s.m_subcpu.spin_until_interrupt)
      ∧ ((s.sub_cycle_r o).2.sub_cycle_r o).1 = (s.sub_cycle_r o).1)
    ∧ (∀ a, 0x800000 ≤ a → a ≤ 0x80ffff → ¬ (0x80000a ≤ a ∧ a ≤ 0x80000b) →
        superchs_state.subcpu_read16 ext s a = (s.shared_ram_r ((a - 0x800000) / 2), s))
    ∧ (∀ a, 0x1000 ≤ a → a ≤ 0x17ff → cs.read a = cs.key_r) := by
  refine ⟨?_, ?_, ?_, ?_⟩
  · unfold superchs_state.main_cycle_r
    by_cases h : s.m_maincpu.pc = 0x702
    · simp [h, cpu_device.spin_until_interrupt]
    · simp [h]
  · unfold superchs_state.sub_cycle_r
    by_cases h : s.m_subcpu.pc = 0x454
    · simp [h, cpu_device.spin_until_interrupt]
    · simp [h]
  · intro a h1 h2 h3
    have hm : a % 16777216 = a := by omega
    have hl : superchs_init_subcpu.lookup_read a
        = some (mk_rw 0x800000 0x80ffff (.member .shared_ram_r) (.member .shared_ram_w)) := by
      simp only [address_space.lookup_read, superchs_init_subcpu, superchs_cpub_map,
        address_space.install_read_handler, List.cons_append, List.nil_append, find_last,
        mk_rom, mk_ram, mk_r, mk_w, mk_rw, entry_covers, clear_bits_zero, and_ffffff, hm,
        Option.isSome, Bool.true_and, Bool.false_and]
      simp (disch := omega) only [decide_eq_true, decide_eq_false]
      simp
    have hoff : superchs_init_subcpu.offset_in
        (mk_rw 0x800000 0x80ffff (.member .shared_ram_r) (.member .shared_ram_w)) a
          = a - 0x800000 := by
      simp only [address_space.offset_in, superchs_init_subcpu, superchs_cpub_map,
        address_space.install_read_handler, mk_rw, clear_bits_zero, and_ffffff, hm]
    unfold superchs_state.subcpu_read16
    rw [hl]
    simp only [hoff]
    rfl
  · intro a h1 h2
    have hm : a % 65536 = a := by omega
    have hl : cvicny_mem.lookup_read a = some (mk_r 0x1000 0x17ff (.member .key_r)) := by
      simp only [address_space.lookup_read, cvicny_mem, find_last,
        mk_rom, mk_ram, mk_r, mk_w, map_entry.mirror, entry_covers, clear_bits_zero,
        clear_bits_0x400, and_ffff, hm, Option.isSome, Bool.true_and, Bool.false_and]
      simp (disch := omega) only [decide_eq_true, decide_eq_false]
      simp
    unfold cvicny_state.read
    rw [hl]
    rfl

/-- C11: every handler entry has a well-formed range.  For every entry of the ampscarp
`mem_map`, of `cvicny_mem`, `poly_mem`, `superchs_map`, `superchs_cpub_map` and
`chase3_cpub_map`, and for the two ranges installed by the superchs DRIVER_INIT (the
entries the initialised spaces have beyond their maps), `start <= end`. -/
theorem C11_ranges_well_formed :
    (∀ e ∈ mem_map.entries, e.addrstart ≤ e.addrend)
    ∧ (∀ e ∈ cvicny_mem.entries, e.addrstart ≤ e.addrend)
    ∧ (∀ e ∈ poly_mem.entries, e.addrstart ≤ e.addrend)
    ∧ (∀ e ∈ superchs_map.entries, e.addrstart ≤ e.addrend)
    ∧ (∀ e ∈ superchs_cpub_map.entries, e.addrstart ≤ e.addrend)
    ∧ (∀ e ∈ chase3_cpub_map.entries, e.addrstart ≤ e.addrend)
    ∧ (∀ e ∈ superchs_init_maincpu.entries, e.addrstart ≤ e.addrend)
    ∧ (∀ e ∈ superchs_init_subcpu.entries, e.addrstart ≤ e.addrend)
    ∧ superchs_init_maincpu.entries
        = superchs_map.entries ++ [mk_r 0x100000 0x100003 (.member .main_cycle_r)]
    ∧ superchs_init_subcpu.entries
        = superchs_cpub_map.entries ++ [mk_r 0x80000a 0x80000b (.member .sub_cycle_r)] := by
  refine ⟨?_, ?_, ?_, ?_, ?_, ?_, ?_, ?_, rfl, rfl⟩
  · intro e he
    simp only [mem_map, List.mem_cons, List.mem_singleton, List.not_mem_nil, or_false] at he
    subst he; decide
  · intro e he
    simp only [cvicny_mem, List.mem_cons, List.mem_singleton, List.not_mem_nil, or_false] at he
    rcases he with rfl | rfl | rfl | rfl | rfl <;> decide
  · intro e he
    simp only [poly_mem, List.mem_cons, List.mem_singleton, List.not_mem_nil, or_false] at he
    rcases he with rfl | rfl | rfl | rfl | rfl | rfl | rfl | rfl | rfl | rfl | rfl | rfl | rfl
      | rfl | rfl | rfl <;> decide
  · intro e he
    simp only [superchs_map, List.mem_cons, List.mem_singleton, List.not_mem_nil, or_false]
      at he
    rcases he with rfl | rfl | rfl | rfl | rfl | rfl | rfl | rfl | rfl | rfl | rfl <;> decide
  · intro e he
    simp only [superchs_cpub_map, List.mem_cons, List.mem_singleton, List.not_mem_nil,
      or_false] at he
    rcases he with rfl | rfl | rfl | rfl | rfl <;> decide
  · intro e he
    simp only [chase3_cpub_map, List.mem_cons, List.mem_singleton, List.not_mem_nil,
      or_false] at he
    rcases he with rfl | rfl | rfl | rfl | rfl | rfl <;> decide
  · intro e he
    simp only [superchs_init_maincpu, address_space.install_read_handler, superchs_map,
      List.cons_append, List.nil_append, List.mem_cons, List.mem_singleton, List.not_mem_nil,
      or_false] at he
    rcases he with rfl | rfl | rfl | rfl | rfl | rfl | rfl | rfl | rfl | rfl | rfl | rfl
      <;> decide
  · intro e he
    simp only [superchs_init_subcpu, address_space.install_read_handler, superchs_cpub_map,
      List.cons_append, List.nil_append, List.mem_cons, List.mem_singleton, List.not_mem_nil,
      or_false] at he
    rcases he with rfl | rfl | rfl | rfl | rfl | rfl <;> decide

/-- Counterexample to C12 as stated: digit 0 is selected and was the digit last written,
its output is 0; after `segment_w(0x3f)` the output of digit 0 is still 0, not `0x3f`. -/
theorem C12_counterexample :
    cvicny_same_digit.m_digit = 0
    ∧ (cvicny_same_digit.segment_w 0x3f).m_digits 0 = 0
    ∧ (cvicny_same_digit.segment_w 0x3f).m_digits 0 ≠ 0x3f := by
  decide

/-- C12 (amended): `segment_w` outputs the segments on the selected digit when the
selected digit differs from the digit last written.  For every state with
`m_digit != m_digit_last` and every data byte, after `segment_w(data)` the output of digit
`m_digit` equals `data`, every other output is unchanged, and `m_digit_last` equals
`m_digit`. -/
theorem C12_segment_w_new_digit (s : cvicny_state) (data : Nat)
    (h : s.m_digit ≠ s.m_digit_last) :
    (s.segment_w data).m_digits s.m_digit = data
    ∧ (∀ j, j ≠ s.m_digit → (s.segment_w data).m_digits j = s.m_digits j)
    ∧ (s.segment_w data).m_digit = s.m_digit
    ∧ (s.segment_w data).m_digit_last = s.m_digit := by
  refine ⟨?_, ?_, ?_, ?_⟩
  · simp [cvicny_state.segment_w, h, store]
  · intro j hj
    simp [cvicny_state.segment_w, h, store, hj]
  · simp [cvicny_state.segment_w, h]
  · simp [cvicny_state.segment_w, h]

/-- Witness of C12 (amended): digit 3 selected after digit 2, `segment_w(0x3f)` shows
`0x3f` on digit 3. -/
theorem C12_segment_w_new_digit_witness :
    cvicny_new_digit.m_digit ≠ cvicny_new_digit.m_digit_last
    ∧ (cvicny_new_digit.segment_w 0x3f).m_digits cvicny_new_digit.m_digit = 0x3f :=
  ⟨by decide, (C12_segment_w_new_digit cvicny_new_digit 0x3f (by decide)).1⟩

/-- C13: `digit_w` sets the keyboard scanning row and the digit to display.  For every
state and data byte, after `digit_w(data)` the selected digit `m_digit` is `data & 7`, the
next `key_r` reads the input port `X<data & 7>` (and that port exists), and `m_digit_last`,
all digit outputs, the memories and the ports are unchanged. -/
theorem C13_digit_w (s : cvicny_state) (data : Nat) :
    (s.digit_w data).m_digit = data &&& 7
    ∧ data &&& 7 < 8
    ∧ (s.digit_w data).key_r
        = some (u8 (((u8 (s.ports (data &&& 7)) <<< 4) ^^^ 0xf0) ||| u8 (s.ports (data &&& 7))))
    ∧ (s.digit_w data).m_digit_last = s.m_digit_last
    ∧ (s.digit_w data).m_digits = s.m_digits
    ∧ (s.digit_w data).rom = s.rom
    ∧ (s.digit_w data).ram = s.ram
    ∧ (s.digit_w data).ports = s.ports := by
  have h8 : data &&& 7 < 8 := by rw [and_seven]; omega
  refine ⟨rfl, h8, ?_, rfl, rfl, rfl, rfl, rfl⟩
  simp only [cvicny_state.key_r, cvicny_state.digit_w, h8, if_true]

/-- C14: keyboard strobe on poly PIA1 port B.  For every byte `d`, after `kbd_put(d)` the
first `pia1_b_in` returns `d | 0x80`; it clears the strobe, so every later `pia1_b_in`
(with no `kbd_put` in between) returns `d & 0x7f`; and a read never changes bits 0 .. 6 of
the stored key, whatever the state. -/
theorem C14_keyboard_strobe {pia : Type} (cb1_w : pia → Nat → pia) (s t : poly_state pia)
    (d n : Nat) (hd : d < 256) :
    (s.kbd_put cb1_w d).pia1_b_in.1 = d ||| 0x80
    ∧ (poly_state.after_reads (n + 1) (s.kbd_put cb1_w d)).pia1_b_in.1 = d &&& 0x7f
    ∧ t.pia1_b_in.1 = t.m_term_data
    ∧ t.pia1_b_in.2.m_term_data &&& 0x7f = t.m_term_data &&& 0x7f := by
  refine ⟨?_, ?_, rfl, ?_⟩
  · show u8 (d ||| 0x80) = d ||| 0x80
    exact u8_or_0x80 d hd
  · show (poly_state.after_reads (n + 1) (s.kbd_put cb1_w d)).m_term_data = d &&& 0x7f
    rw [after_reads_term_data]
    show u8 (d ||| 0x80) &&& 0x7f = d &&& 0x7f
    rw [u8_or_0x80 d hd, or_0x80_and_0x7f]
  · show t.m_term_data &&& 0x7f &&& 0x7f = t.m_term_data &&& 0x7f
    exact and_0x7f_idem _

/-- Witness of C14: the key `0x41`; the first read returns `0xc1`, the third `0x41`. -/
theorem C14_keyboard_strobe_witness :
    (poly_idle.kbd_put (fun p _ => p) 0x41).pia1_b_in.1 = 0x41 ||| 0x80
    ∧ (0x41 ||| 0x80 = 0xc1)
    ∧ (poly_state.after_reads (1 + 1) (poly_idle.kbd_put (fun p _ => p) 0x41)).pia1_b_in.1
        = 0x41 &&& 0x7f
    ∧ (0x41 &&& 0x7f = 0x41) :=
  ⟨(C14_keyboard_strobe (fun p _ => p) poly_idle poly_idle 0x41 1 (by decide)).1, by decide,
   (C14_keyboard_strobe (fun p _ => p) poly_idle poly_idle 0x41 1 (by decide)).2.1, by decide⟩

/-- C15: baud-rate selection in poly.  For each `data` of the documented table
(`0=9600, 2=4800, 4=2400, 6=1200, 8=600, A=300`) `baud_rate_w(data)` sets a clock scale `s`
with `153600 * s = 16 * (documented baud rate)`, and `s` is exactly `1 / 2^(data/2)`. -/
theorem C15_baud_rate {pia : Type} (s : poly_state pia) (data : Nat)
    (h : data = 0x0 ∨ data = 0x2 ∨ data = 0x4 ∨ data = 0x6 ∨ data = 0x8 ∨ data = 0xA) :
    (acia_clock_hz : ℚ) * (s.baud_rate_w data).m_acia_clock = 16 * (documented_baud data : ℚ)
    ∧ (s.baud_rate_w data).m_acia_clock = 1 / (2 : ℚ) ^ (data / 2) := by
  have e0 : (0x0 &&& 0x0e) >>> 1 = 0 := by decide
  have e1 : (0x2 &&& 0x0e) >>> 1 = 1 := by decide
  have e2 : (0x4 &&& 0x0e) >>> 1 = 2 := by decide
  have e3 : (0x6 &&& 0x0e) >>> 1 = 3 := by decide
  have e4 : (0x8 &&& 0x0e) >>> 1 = 4 := by decide
  have e5 : (0xA &&& 0x0e) >>> 1 = 5 := by decide
  have s0 : (1 <<< 0 : Nat) = 1 := by decide
  have s1 : (1 <<< 1 : Nat) = 2 := by decide
  have s2 : (1 <<< 2 : Nat) = 4 := by decide
  have s3 : (1 <<< 3 : Nat) = 8 := by decide
  have s4 : (1 <<< 4 : Nat) = 16 := by decide
  have s5 : (1 <<< 5 : Nat) = 32 := by decide
  rcases h with rfl | rfl | rfl | rfl | rfl | rfl <;>
    simp only [poly_state.baud_rate_w, e0, e1, e2, e3, e4, e5, s0, s1, s2, s3, s4, s5,
      acia_clock_hz, documented_baud] <;>
    norm_num

/-- Witness of C15: `baud_rate_w(0xA)` sets the scale `1 / 32`, that is 300 baud. -/
theorem C15_baud_rate_witness :
    (acia_clock_hz : ℚ) * (poly_idle.baud_rate_w 0xA).m_acia_clock
        = 16 * (documented_baud 0xA : ℚ)
    ∧ documented_baud 0xA = 300 :=
  ⟨(C15_baud_rate poly_idle 0xA (Or.inr (Or.inr (Or.inr (Or.inr (Or.inr rfl)))))).1, by decide⟩

/-- C16: `volume_r` encodes the volume as 00 = full, ff = silent.  For adjuster values
`v <= w <= 100` the handler returns `((w * 255) / 100) xor 0xff`, a value within 0 .. 255,
it is `0x00` at 100 and `0xff` at 0, and it does not increase from `v` to `w`. -/
theorem C16_volume_r (v w : Nat) (hvw : v ≤ w) (hw : w ≤ 100) :
    superchs_state.volume_r w = ((w * 255) / 100) ^^^ 0xff
    ∧ superchs_state.volume_r w ≤ 255
    ∧ superchs_state.volume_r w ≤ superchs_state.volume_r v
    ∧ superchs_state.volume_r 100 = 0x00
    ∧ superchs_state.volume_r 0 = 0xff := by
  have hv : v ≤ 100 := le_trans hvw hw
  have hq : w * 255 / 100 ≤ 255 := by omega
  have hm : v * 255 / 100 ≤ w * 255 / 100 :=
    Nat.div_le_div_right (Nat.mul_le_mul_right 255 hvw)
  refine ⟨?_, ?_, ?_, by decide, by decide⟩
  · rw [volume_r_eq w hw, xor_ff_of_le _ hq]
  · rw [volume_r_eq w hw]; omega
  · rw [volume_r_eq w hw, volume_r_eq v hv]; omega

/-- Witness of C16: the default adjuster value 75 gives `0x40`, above it 100 gives 0. -/
theorem C16_volume_r_witness :
    superchs_state.volume_r 100 ≤ superchs_state.volume_r 75
    ∧ superchs_state.volume_r 75 = 0x40 :=
  ⟨(C16_volume_r 75 100 (by decide) (by decide)).2.2.1, by decide⟩

/-- Counterexample to C17 as stated: with devices that do nothing, the poly machine has
no bank switching.  No register of `0xE050..0xE05F` and no address of the RAM and ROM
windows are such that the read after writing 2 returns one storage cell and the read after
writing 0 another one. -/
theorem C17_counterexample :
    ¬ poly_bank_switching (fun _ _ _ (m : poly_machine Unit Unit) => m)
        (fun (_ : poly_machine Unit Unit) _ _ => 0) :=
  poly_not_bank_switching _ _ poly_machine_sample

/-- C17 (amended): the poly machine declares the translator range `0xE050..0xE05F` as plain
RAM and selects no bank.  A byte written to an address `r` of the range is read back at
`r`; the write leaves the driver fields, the devices and every other memory cell as they
were; so the very next read of any other RAM or ROM address `w` returns the cell at `w`,
as before the write, and returns the same after writing 2 as after writing 0. -/
theorem C17_no_bank_switching {pia devs : Type}
    (dev_w : map_entry → Nat → Nat → poly_machine pia devs → poly_machine pia devs)
    (dev_r : poly_machine pia devs → map_entry → Nat → Nat)
    (m : poly_machine pia devs) (r v w : Nat)
    (h1 : 0xe050 ≤ r) (h2 : r ≤ 0xe05f) (hw : w ≤ 0xffff) (hne : w ≠ r)
    (hb : poly_memory_backed w = true) :
    (m.write dev_w r v).read dev_r r = u8 v
    ∧ (m.write dev_w r v).driver = m.driver
    ∧ (m.write dev_w r v).devices = m.devices
    ∧ (∀ j, j ≠ r → (m.write dev_w r v).mem j = m.mem j)
    ∧ (m.write dev_w r v).read dev_r w = m.mem w
    ∧ m.read dev_r w = m.mem w
    ∧ (m.write dev_w r 2).read dev_r w = (m.write dev_w r 0).read dev_r w := by
  refine ⟨poly_machine_dat_readback dev_w dev_r m r v h1 h2, ?_, ?_, ?_,
    poly_machine_dat_frame dev_w dev_r m r v w h1 h2 hw hne hb, ?_, ?_⟩
  · rw [poly_machine_write_dat dev_w m r v h1 h2]
  · rw [poly_machine_write_dat dev_w m r v h1 h2]
  · intro j hj
    rw [poly_machine_write_dat dev_w m r v h1 h2]
    simp [store, hj]
  · unfold poly_machine.read
    exact poly_read_backed _ _ w hw hb
  · rw [poly_machine_dat_frame dev_w dev_r m r 2 w h1 h2 hw hne hb,
      poly_machine_dat_frame dev_w dev_r m r 0 w h1 h2 hw hne hb]

/-- Witness of C17 (amended): the register `0xe050` reads back the byte 2, and the RAM
address `0x8000` reads its own cell after the write. -/
theorem C17_no_bank_switching_witness :
    poly_memory_backed 0x8000 = true
    ∧ (poly_machine_sample.write (fun _ _ _ m => m) 0xe050 2).read (fun _ _ _ => 0) 0xe050
        = u8 2
    ∧ (poly_machine_sample.write (fun _ _ _ m => m) 0xe050 2).read (fun _ _ _ => 0) 0x8000
        = poly_machine_sample.mem 0x8000 :=
  ⟨by decide,
   (C17_no_bank_switching (fun _ _ _ m => m) (fun _ _ _ => 0) poly_machine_sample 0xe050 2
      0x8000 (by decide) (by decide) (by decide) (by decide) (by decide)).1,
   (C17_no_bank_switching (fun _ _ _ m => m) (fun _ _ _ => 0) poly_machine_sample 0xe050 2
      0x8000 (by decide) (by decide) (by decide) (by decide) (by decide)).2.2.2.2.1⟩

/-- C18: cycle rejection.  For every bus graph in which the address space of device `A`
forwards to device `B` and that of `B` forwards to `A`, `validate()` fails with
`ConfigurationError`, and freezing the graph for machine start fails with it too. -/
theorem C18_cycle_rejected (g : bus_graph) (A B : Nat)
    (hab : (A, B) ∈ g.edges) (hba : (B, A) ∈ g.edges) :
    g.validate = .error (.ConfigurationError "cyclic bus forwarding")
    ∧ g.freeze = .error (.ConfigurationError "cyclic bus forwarding") := by
  have hlen : ∃ n, g.edges.length = n + 1 := by
    cases hg : g.edges with
    | nil => rw [hg] at hab; simp at hab
    | cons x xs => exact ⟨xs.length, rfl⟩
  obtain ⟨n, hn⟩ := hlen
  have hreach : g.reaches g.edges.length B A = true := by
    rw [hn]
    unfold bus_graph.reaches
    rw [Bool.or_eq_true]
    right
    rw [List.any_eq_true]
    exact ⟨(B, A), hba, by simp [reaches_self]⟩
  have hany : g.edges.any (fun e => g.reaches g.edges.length e.2 e.1) = true := by
    rw [List.any_eq_true]
    exact ⟨(A, B), hab, hreach⟩
  have hv : g.validate = .error (.ConfigurationError "cyclic bus forwarding") := by
    unfold bus_graph.validate
    rw [hany]
    rfl
  refine ⟨hv, ?_⟩
  unfold bus_graph.freeze
  rw [hv]

/-- Witness of C18: the graph `0 -> 1 -> 0` is rejected, while the graph `0 -> 1` alone
passes `validate()`. -/
theorem C18_cycle_rejected_witness :
    (⟨[(0, 1), (1, 0)]⟩ : bus_graph).validate
        = .error (.ConfigurationError "cyclic bus forwarding")
    ∧ (⟨[(0, 1)]⟩ : bus_graph).validate = .ok () :=
  ⟨(C18_cycle_rejected ⟨[(0, 1), (1, 0)]⟩ 0 1 (by decide) (by decide)).1, rfl⟩

/-- C19, the code at the failing input: `sub_cycle_r` returns the low 16 bits of word 2 of
`m_ram`, while `shared_ram_r` at word offset 5, the handler it shadows at
`0x80000a..0x80000b`, returns the low 16 bits of word 2 of `m_shared_ram`.  With `m_ram`
zero and `0x1234` in shared RAM the sub CPU reads 0 through the speedup handler and
`0x1234` through the map without it. -/
theorem C19_sub_cycle_r_diverges (s : superchs_state) (o : Nat) :
    (s.sub_cycle_r o).1 = s.m_ram 2 &&& 0xffff
    ∧ s.shared_ram_r 5 = s.m_shared_ram 2 &&& 0xffff
    ∧ (superchs_diverging.sub_cycle_r 5).1 = 0
    ∧ superchs_diverging.shared_ram_r 5 = 0x1234
    ∧ (superchs_state.subcpu_read16 (fun _ _ => 0) superchs_diverging 0x80000a).1 = 0
    ∧ (superchs_state.read16_in superchs_cpub_map (fun _ _ => 0) superchs_diverging
        0x80000a).1 = 0x1234 := by
  refine ⟨sub_cycle_r_value s o, rfl, by decide, by decide, by decide, by decide⟩

/-- C20: the main-CPU speedup handler is transparent.  For every machine state and every
address `a` of `0x100000..0x100003`, `main_cycle_r` returns word 0 of the share `"ram"`,
which is the 32-bit word the shadowed RAM entry `0x100000..0x11ffff` holds at `a`; the
read of the initialised space and the read through the map alone return the same value. -/
theorem C20_main_cycle_r_transparent (ext : map_entry → Nat → Nat) (s : superchs_state)
    (a o : Nat) (h1 : 0x100000 ≤ a) (h2 : a ≤ 0x100003) :
    (s.main_cycle_r o).1 = s.m_ram 0
    ∧ (superchs_state.read32_in superchs_map ext s a).1 = s.m_ram 0
    ∧ (superchs_state.maincpu_read32 ext s a).1
        = (superchs_state.read32_in superchs_map ext s a).1 := by
  have hm : a % 16777216 = a := by omega
  have hr : (superchs_state.read32_in superchs_map ext s a).1 = s.m_ram 0 := by
    have hoff : superchs_map.offset_in (mk_ram 0x100000 0x11ffff "ram") a / 4 = 0 := by
      simp only [address_space.offset_in, superchs_map, mk_ram, clear_bits_zero, and_ffffff, hm]
      omega
    unfold superchs_state.read32_in
    rw [superchs_map_lookup_ram a h1 (by omega)]
    simp only [hoff]
    rfl
  have hi : (superchs_state.maincpu_read32 ext s a).1 = s.m_ram 0 := by
    unfold superchs_state.maincpu_read32
    rw [superchs_init_lookup_main_cycle a h1 h2]
    exact main_cycle_r_value s _
  exact ⟨main_cycle_r_value s o, hr, hi.trans hr.symm⟩

/-- Witness of C20: at `0x100002`, with the main CPU at `pc = 0x702`, both reads agree. -/
theorem C20_main_cycle_r_transparent_witness :
    (superchs_state.maincpu_read32 (fun _ _ => 0) superchs_at_0x702 0x100002).1
      = (superchs_state.read32_in superchs_map (fun _ _ => 0) superchs_at_0x702 0x100002).1 :=
  (C20_main_cycle_r_transparent (fun _ _ => 0) superchs_at_0x702 0x100002 0
    (by decide) (by decide)).2.2

/-- C21: shared-RAM indexing is in bounds.  Every address of the sub CPU window
`0x800000..0x80ffff` resolves, for reads and for writes, to the handlers `shared_ram_r` and
`shared_ram_w` with a 16-bit word offset of `0..0x7fff`, and every such offset occurs; for
every such offset the index `offset / 2` is below `0x4000`, the number of 32-bit words of
the share `"shared_ram"` mapped at `0x200000..0x20ffff`; and word `offset / 2` is the only
word of the share that the two handlers read or change. -/
theorem C21_shared_ram_index_in_bounds :
    (shared_ram_share ∈ superchs_map.entries ∧ shared_ram_share.words32 = 0x4000)
    ∧ (∀ a, 0x800000 ≤ a → a ≤ 0x80ffff →
        superchs_cpub_map.lookup_read a = some shared_ram_window
        ∧ superchs_cpub_map.lookup_write a = some shared_ram_window
        ∧ chase3_cpub_map.lookup_read a = some shared_ram_window
        ∧ chase3_cpub_map.lookup_write a = some shared_ram_window
        ∧ superchs_cpub_map.offset_in shared_ram_window a / 2 ≤ 0x7fff
        ∧ chase3_cpub_map.offset_in shared_ram_window a / 2 ≤ 0x7fff
        ∧ superchs_cpub_map.offset_in shared_ram_window a / 2 / 2 < shared_ram_share.words32)
    ∧ (∀ o, o ≤ 0x7fff →
        ∃ a, 0x800000 ≤ a ∧ a ≤ 0x80ffff
          ∧ superchs_cpub_map.offset_in shared_ram_window a / 2 = o)
    ∧ (∀ o, o ≤ 0x7fff → o / 2 < shared_ram_share.words32)
    ∧ (∀ (s t : superchs_state) (o : Nat),
        s.m_shared_ram (o / 2) = t.m_shared_ram (o / 2) → s.shared_ram_r o = t.shared_ram_r o)
    ∧ (∀ (s : superchs_state) (o d m j : Nat),
        j ≠ o / 2 → (s.shared_ram_w o d m).m_shared_ram j = s.m_shared_ram j)
    ∧ (∀ (s t : superchs_state) (o d m : Nat),
        s.m_shared_ram (o / 2) = t.m_shared_ram (o / 2) →
        (s.shared_ram_w o d m).m_shared_ram (o / 2)
          = (t.shared_ram_w o d m).m_shared_ram (o / 2)) := by
  have hw : shared_ram_share.words32 = 0x4000 := by decide
  refine ⟨⟨by simp [superchs_map, shared_ram_share], hw⟩, ?_, ?_, ?_,
    shared_ram_r_local, shared_ram_w_other, shared_ram_w_local⟩
  · intro a h1 h2
    obtain ⟨l1, l2⟩ := cpub_window_lookup a h1 h2
    obtain ⟨l3, l4⟩ := chase3_window_lookup a h1 h2
    obtain ⟨o1, o2⟩ := cpub_window_offset a h1 h2
    refine ⟨l1, l2, l3, l4, ?_, ?_, ?_⟩
    · rw [o1]; omega
    · rw [o2]; omega
    · rw [o1, hw]; omega
  · intro o ho
    refine ⟨0x800000 + 2 * o, by omega, by omega, ?_⟩
    rw [(cpub_window_offset (0x800000 + 2 * o) (by omega) (by omega)).1]
    omega
  · intro o ho
    rw [hw]; omega

/-- Instances of C21: the last byte address `0x80ffff` of the window gives the word offset
`0x7fff` and the index `0x3fff`, the last word of the share. -/
theorem C21_shared_ram_index_in_bounds_witness :
    superchs_cpub_map.lookup_read 0x80ffff = some shared_ram_window
    ∧ superchs_cpub_map.offset_in shared_ram_window 0x80ffff / 2 ≤ 0x7fff
    ∧ superchs_cpub_map.offset_in shared_ram_window 0x80ffff / 2 / 2
        < shared_ram_share.words32
    ∧ superchs_cpub_map.offset_in shared_ram_window 0x80ffff / 2 / 2 = 0x3fff :=
  ⟨(C21_shared_ram_index_in_bounds.2.1 0x80ffff (by decide) (by decide)).1,
   (C21_shared_ram_index_in_bounds.2.1 0x80ffff (by decide) (by decide)).2.2.2.2.1,
   (C21_shared_ram_index_in_bounds.2.1 0x80ffff (by decide) (by decide)).2.2.2.2.2.2,
   by decide⟩
